import Mathlib

/-!
Verification development for the `sql_bulk_import_profile` bulk-import tool.

The Rust sources are shallowly embedded as executable Lean definitions:

* `src/identifier.rs`            → the `Identifier` section below
* `src/table_mapper.rs`          → the `TableMapper` section
* `src/column_graph.rs`          → the `ColumnGraph` section
* `src/temporary_table.rs`       → the `TemporaryTable` section
* `src/insert_processor.rs`      → the `InsertProcessor` section
* `src/merge_processor.rs`       → the `MergeProcessor` section
* `src/import_executor.rs`       → the `ImportExecutor` section
* the data-source streams        → the `DataSourceStreams` section

Modelling conventions, stated once:

* Rust `usize`/`u64` indices and counters are `Nat`; overflow is irrelevant at the
  sizes involved (node indices, record counters).
* Rust byte-offset string slicing (`&s[a..b]`) is modelled by character-offset
  slicing on `String`.  The embedded identifier validator only accepts ASCII
  alphanumerics plus `@$#_` and brackets, for which byte and character offsets
  coincide.  (Rust's `char::is_alphanumeric` is Unicode-wide; the embedding
  restricts to ASCII, which covers every identifier considered here.)
* Rust panics (`unreachable!`, `expect`, `panic!`) are modelled as explicit
  error/`none` outcomes so that reaching them is observable in theorems.
* External collaborators (the `tiberius` driver, `csv_core`, `quick_xml`,
  `rust_decimal`) are modelled at their interfaces, as the spec directs.
-/

namespace SqlBulkImport

/-! # Identifiers (src/identifier.rs) -/

inductive ParseIdentifierError where
  | invalidCharacter (c : Char)
  | invalidBrackets
  | tooFewParts
  | tooManyParts (n : Nat)
deriving DecidableEq, Repr

/-- Characters allowed in a non-bracketed identifier part
(`!c.is_alphanumeric() && !matches!(c, '@' | '$' | '#' | '_')` rejects). -/
def identifierCharValid (c : Char) : Bool :=
  c.isAlphanum || c == '@' || c == '$' || c == '#' || c == '_'

/-- The character loop of `normalize_identifier_part`: walks the characters with
their index, recording whether the first character is `[` and the last is `]`,
failing on any other invalid character. -/
def scanIdentifierChars : List Char → Nat → Bool → Bool →
    Except ParseIdentifierError (Bool × Bool)
  | [], _, sb, eb => .ok (sb, eb)
  | c :: rest, i, sb, eb =>
    if i == 0 && c == '[' then
      scanIdentifierChars rest (i + 1) true eb
    else if rest.isEmpty && c == ']' then
      scanIdentifierChars rest (i + 1) sb true
    else if !identifierCharValid c then
      .error (.invalidCharacter c)
    else
      scanIdentifierChars rest (i + 1) sb eb

/-- Models `normalize_identifier_part`: accept `[...]` verbatim, auto-bracket a bare
part (including the empty part), reject unbalanced brackets. -/
def normalizeIdentifierPart (part : String) : Except ParseIdentifierError String := do
  let (startBracket, endBracket) ← scanIdentifierChars part.data 0 false false
  match startBracket, endBracket with
  | true, false => .error .invalidBrackets
  | false, true => .error .invalidBrackets
  | true, true => .ok part
  | false, false => .ok ("[" ++ part ++ "]")

/-- Models Rust byte slicing `&s[..n]` (see the conventions note). -/
def strTake (s : String) (n : Nat) : String := ⟨s.data.take n⟩

/-- Models Rust byte slicing `&s[n..]`. -/
def strDrop (s : String) (n : Nat) : String := ⟨s.data.drop n⟩

/-- Models Rust `str::split(sep)`: the empty string yields one empty part,
`"a..b"` yields `["a", "", "b"]`. -/
def splitOnChar (sep : Char) (s : String) : List String :=
  go s.data []
where
  go : List Char → List Char → List String
  | [], acc => [⟨acc.reverse⟩]
  | c :: rest, acc =>
    if c = sep then ⟨acc.reverse⟩ :: go rest [] else go rest (c :: acc)

structure DatabaseIdentifier where
  full : String
deriving DecidableEq, Repr

structure SchemaIdentifier where
  full : String
deriving DecidableEq, Repr

structure TableIdentifier where
  full : String
  separatorSchemaTable : Nat
deriving DecidableEq, Repr

structure ColumnIdentifier where
  full : String
  separatorSchemaTable : Nat
  separatorTableColumn : Nat
deriving DecidableEq, Repr

def DatabaseIdentifier.fromStr (identifier : String) :
    Except ParseIdentifierError DatabaseIdentifier := do
  let full ← normalizeIdentifierPart identifier
  .ok { full }

def SchemaIdentifier.fromStr (identifier : String) :
    Except ParseIdentifierError SchemaIdentifier := do
  let full ← normalizeIdentifierPart identifier
  .ok { full }

/-- Models `TableIdentifier::with_schema`. -/
def TableIdentifier.withSchema (schema : SchemaIdentifier) (table : String) :
    Except ParseIdentifierError TableIdentifier := do
  let table ← normalizeIdentifierPart table
  .ok { full := schema.full ++ "." ++ table, separatorSchemaTable := schema.full.length }

/-- The arity dispatch of `TableIdentifier::from_str` over the dot-separated
parts: one part ⇒ schema defaults to `[dbo]`; two parts ⇒ the first part is
the schema; more parts ⇒ `TooManyParts`.  Only the first two parts are
normalized before the arity check, as in the source (the extra parts are
merely counted). -/
def tableFromParts : List String → Except ParseIdentifierError TableIdentifier
  | [p1] =>
    match normalizeIdentifierPart p1 with
    | .error e => .error e
    | .ok table =>
      .ok { full := "[dbo]" ++ "." ++ table, separatorSchemaTable := ("[dbo]" : String).length }
  | [p1, p2] =>
    match normalizeIdentifierPart p1 with
    | .error e => .error e
    | .ok schema =>
      match normalizeIdentifierPart p2 with
      | .error e => .error e
      | .ok table =>
        .ok { full := schema ++ "." ++ table, separatorSchemaTable := schema.length }
  | p1 :: p2 :: _ :: rest =>
    match normalizeIdentifierPart p1 with
    | .error e => .error e
    | .ok _ =>
      match normalizeIdentifierPart p2 with
      | .error e => .error e
      | .ok _ => .error (.tooManyParts rest.length)
  | [] => .error .tooFewParts

/-- Models `TableIdentifier::from_str`. -/
def TableIdentifier.fromStr (identifier : String) :
    Except ParseIdentifierError TableIdentifier :=
  tableFromParts (splitOnChar '.' identifier)

/-- Models `ColumnIdentifier::with_table`. -/
def ColumnIdentifier.withTable (table : TableIdentifier) (column : String) :
    Except ParseIdentifierError ColumnIdentifier := do
  let column ← normalizeIdentifierPart column
  .ok { full := table.full ++ "." ++ column,
        separatorSchemaTable := table.separatorSchemaTable,
        separatorTableColumn := table.full.length }

/-- The arity dispatch of `ColumnIdentifier::from_str`: two parts ⇒ schema
defaults to `[dbo]`; three parts ⇒ schema, table, column; otherwise an arity
error. -/
def columnFromParts : List String → Except ParseIdentifierError ColumnIdentifier
  | [p1, p2] =>
    match normalizeIdentifierPart p1, normalizeIdentifierPart p2 with
    | .error e, _ => .error e
    | .ok _, .error e => .error e
    | .ok table, .ok column =>
      .ok { full := "[dbo]" ++ "." ++ table ++ "." ++ column,
            separatorSchemaTable := ("[dbo]" : String).length,
            separatorTableColumn := ("[dbo]" : String).length + 1 + table.length }
  | [p1, p2, p3] =>
    match normalizeIdentifierPart p1, normalizeIdentifierPart p2,
        normalizeIdentifierPart p3 with
    | .error e, _, _ => .error e
    | .ok _, .error e, _ => .error e
    | .ok _, .ok _, .error e => .error e
    | .ok schema, .ok table, .ok column =>
      .ok { full := schema ++ "." ++ table ++ "." ++ column,
            separatorSchemaTable := schema.length,
            separatorTableColumn := schema.length + 1 + table.length }
  | p1 :: p2 :: p3 :: _ :: rest =>
    match normalizeIdentifierPart p1, normalizeIdentifierPart p2,
        normalizeIdentifierPart p3 with
    | .error e, _, _ => .error e
    | .ok _, .error e, _ => .error e
    | .ok _, .ok _, .error e => .error e
    | .ok _, .ok _, .ok _ => .error (.tooManyParts rest.length)
  | _ => .error .tooFewParts

/-- Models `ColumnIdentifier::from_str`. -/
def ColumnIdentifier.fromStr (identifier : String) :
    Except ParseIdentifierError ColumnIdentifier :=
  columnFromParts (splitOnChar '.' identifier)

def TableIdentifier.schema (t : TableIdentifier) : String :=
  strTake t.full t.separatorSchemaTable

def TableIdentifier.part (t : TableIdentifier) : String :=
  strDrop t.full (t.separatorSchemaTable + 1)

def ColumnIdentifier.part (c : ColumnIdentifier) : String :=
  strDrop c.full (c.separatorTableColumn + 1)

/-- Models `Identifier::part_unescaped`: strips the surrounding brackets of `part`. -/
def TableIdentifier.partUnescaped (t : TableIdentifier) : String :=
  ⟨(t.part.data.take (t.part.data.length - 1)).drop 1⟩

def ColumnIdentifier.partUnescaped (c : ColumnIdentifier) : String :=
  ⟨(c.part.data.take (c.part.data.length - 1)).drop 1⟩

/-- Models `impl From<&ColumnIdentifier> for TableIdentifier`. -/
def ColumnIdentifier.toTable (c : ColumnIdentifier) : TableIdentifier :=
  { full := strTake c.full c.separatorTableColumn,
    separatorSchemaTable := c.separatorSchemaTable }

/-! # Table mapper model (src/table_mapper.rs)

Only the fields the import core reads are modelled; CLI/raw-JSON plumbing,
delete policies and the preprocess transform are out-of-scope collaborators. -/

structure StaticColumn where
  columnIdentifier : ColumnIdentifier
  mapColumn : Bool
  value : String
deriving DecidableEq, Repr

structure ParserColumn where
  columnIdentifier : ColumnIdentifier
  mapColumn : Bool
  fieldName : String
deriving DecidableEq, Repr

structure ParserKeyColumn where
  keyColumnIdentifier : ColumnIdentifier
  fieldName : String
deriving DecidableEq, Repr

structure ProcessedKeyColumn where
  keyColumnIdentifier : ColumnIdentifier
  columnIdentifier : ColumnIdentifier
deriving DecidableEq, Repr

inductive LookupKeyColumn where
  | parserKeyColumn (k : ParserKeyColumn)
  | processedKeyColumn (k : ProcessedKeyColumn)
deriving DecidableEq, Repr

structure LookupColumn where
  columnIdentifier : ColumnIdentifier
  mapColumn : Bool
  tableIdentifier : TableIdentifier
  outputColumnIdentifier : ColumnIdentifier
  keyColumns : List LookupKeyColumn
deriving DecidableEq, Repr

inductive TableMapperColumn where
  | static (c : StaticColumn)
  | parser (c : ParserColumn)
  | lookup (c : LookupColumn)
deriving DecidableEq, Repr

structure TableMapper where
  tableIdentifier : TableIdentifier
  columns : List TableMapperColumn
  keyColumns : List ColumnIdentifier
deriving Repr

/-- Models `ParserColumn::new`. -/
def ParserColumn.new (columnIdentifier : ColumnIdentifier) (mapColumn : Bool)
    (fieldName : String) : ParserColumn :=
  { columnIdentifier, mapColumn, fieldName }

/-! # Database metadata model (tiberius collaborator types)

`BaseMetaDataColumn` carries column flags and a type descriptor.  Of the
driver's flag set the core reads `Nullable` (staging nullability) and compares
the whole flag set against exactly `Identity` (merge exclusions); the remaining
flags are collapsed into a single `other` marker. -/

structure ColumnFlags where
  nullable : Bool
  identity : Bool
  other : Bool
deriving DecidableEq, Repr

def ColumnFlags.empty : ColumnFlags := { nullable := false, identity := false, other := false }

/-- Models the Rust comparison `flags == ColumnFlag::Identity`, which holds
only when the flag set is exactly the singleton `Identity`. -/
def ColumnFlags.eqIdentityOnly (f : ColumnFlags) : Bool :=
  f == { nullable := false, identity := true, other := false }

inductive FixedLenType where
  | null | int1 | bit | int2 | int4 | datetime4 | float4 | money
  | datetime | float8 | money4 | int8
deriving DecidableEq, Repr

inductive VarLenType where
  | guid | intn | bitn | decimaln | numericn | floatn | money | datetimen
  | daten | timen | datetime2 | datetimeOffsetn | bigVarBin | bigVarChar
  | bigBinary | bigChar | nVarchar | nChar | xml | udt | text | image
  | nText | ssVariant
deriving DecidableEq, Repr

/-- Models `tiberius::TypeInfo`; `varLenSized` folds the `VarLenContext` (type, size,
collation) into type and size, collation being irrelevant to the core. -/
inductive TypeInfo where
  | fixedLen (ty : FixedLenType)
  | varLenSized (ty : VarLenType) (size : Nat)
  | varLenSizedPrecision (ty : VarLenType) (size : Nat) (precision : Nat) (scale : Nat)
  | xml
deriving DecidableEq, Repr

structure BaseMetaDataColumn where
  flags : ColumnFlags
  ty : TypeInfo
deriving DecidableEq, Repr

/-- Models `usize::MAX`, the declared size of the fallback NVARCHAR(max) metadata. -/
def usizeMax : Nat := 2 ^ 64 - 1

/-- The fallback metadata used when a column is absent from the fetched
table metadata: default (empty) flags, NVARCHAR(max). -/
def defaultMetadata : BaseMetaDataColumn :=
  { flags := ColumnFlags.empty, ty := .varLenSized .nVarchar usizeMax }

/-- The nested metadata map `table → column identifier → metadata` built by
the orchestrator, as an association list. -/
def TableMetadata : Type :=
  List (TableIdentifier × List (ColumnIdentifier × BaseMetaDataColumn))

/-- Association-list lookup, modelling `HashMap::get`. -/
def assocFind {α β : Type} [BEq α] (l : List (α × β)) (a : α) : Option β :=
  (l.find? (fun p => p.1 == a)).map (fun p => p.2)

/-- Models `ImportOptions`; `path_override` and `deletion` only affect the
out-of-scope CLI/data-source file handling. -/
structure ImportOptions where
  noMerge : Bool
  noDrop : Bool
  noDuplicateOptimization : Bool
deriving DecidableEq, Repr

def ImportOptions.default : ImportOptions :=
  { noMerge := false, noDrop := false, noDuplicateOptimization := false }

/-! # Column graph (src/column_graph.rs) -/

inductive ColumnNode where
  | staticColumn (column : StaticColumn) (mapColumn : Bool)
  | parserColumn (column : ParserColumn) (mapColumn : Bool)
  | lookupColumn (column : LookupColumn) (mapColumn : Bool)
  | lookupColumnParserKeyColumn (k : ParserKeyColumn)
  | lookupColumnProcessedKeyColumn (k : ProcessedKeyColumn)
deriving DecidableEq, Repr

/-- Models `impl Column for ColumnNode`, `identifier`. -/
def ColumnNode.identifier : ColumnNode → ColumnIdentifier
  | .staticColumn c _ => c.columnIdentifier
  | .parserColumn c _ => c.columnIdentifier
  | .lookupColumn c _ => c.columnIdentifier
  | .lookupColumnParserKeyColumn k => k.keyColumnIdentifier
  | .lookupColumnProcessedKeyColumn k => k.keyColumnIdentifier

/-- Models `impl Column for ColumnNode`, `map`: the node-level flag OR-ed with the
declared flag; key nodes are never mapped. -/
def ColumnNode.map : ColumnNode → Bool
  | .staticColumn c m => m || c.mapColumn
  | .parserColumn c m => m || c.mapColumn
  | .lookupColumn c m => m || c.mapColumn
  | .lookupColumnParserKeyColumn _ => false
  | .lookupColumnProcessedKeyColumn _ => false

/-- Models `ColumnNode::is_transient`. -/
def ColumnNode.isTransient : ColumnNode → Bool
  | .staticColumn _ _ => true
  | .parserColumn _ _ => false
  | .lookupColumn _ _ => false
  | .lookupColumnParserKeyColumn _ => true
  | .lookupColumnProcessedKeyColumn _ => true

/-- The graph being built: nodes carry their stable `petgraph` index (indices
are assigned in creation order and survive node removal), edges are directed
pairs (source, target) in insertion order, possibly parallel, as with
`StableDiGraph::add_edge`. -/
structure GraphBuildState where
  nodes : List (Nat × ColumnNode)
  edges : List (Nat × Nat)
  next : Nat
  dynamicIndices : List Nat
deriving Repr

def GraphBuildState.empty : GraphBuildState :=
  { nodes := [], edges := [], next := 0, dynamicIndices := [] }

/-- Models `graph.add_node`. -/
def GraphBuildState.addNode (st : GraphBuildState) (n : ColumnNode) :
    GraphBuildState × Nat :=
  ({ st with nodes := st.nodes ++ [(st.next, n)], next := st.next + 1 }, st.next)

/-- Models `graph.add_edge` (always appends, parallel edges allowed). -/
def GraphBuildState.addEdge (st : GraphBuildState) (a b : Nat) : GraphBuildState :=
  { st with edges := st.edges ++ [(a, b)] }

/-- The per-lookup-key loop of `ColumnGraph::new`: a ParserKey adds the key
node, the edge `key → lookup`, a synthetic Parser node (map flag `false`)
with edge `parser → key`, and records the synthetic node as dynamic; a
ProcessedKey adds the key node and the edge `key → lookup`. -/
def addLookupKeys (lookupIndex : Nat) :
    GraphBuildState → List LookupKeyColumn → GraphBuildState
  | st, [] => st
  | st, .parserKeyColumn pk :: rest =>
    let (st, keyIndex) := st.addNode (.lookupColumnParserKeyColumn pk)
    let st := st.addEdge keyIndex lookupIndex
    let (st, targetIndex) :=
      st.addNode (.parserColumn (ParserColumn.new pk.keyColumnIdentifier false pk.fieldName) false)
    let st := st.addEdge targetIndex keyIndex
    let st := { st with dynamicIndices := st.dynamicIndices ++ [targetIndex] }
    addLookupKeys lookupIndex st rest
  | st, .processedKeyColumn pk :: rest =>
    let (st, keyIndex) := st.addNode (.lookupColumnProcessedKeyColumn pk)
    let st := st.addEdge keyIndex lookupIndex
    addLookupKeys lookupIndex st rest

/-- The node-adding loop of `ColumnGraph::new` (step 1). -/
def addColumnNodes : GraphBuildState → List TableMapperColumn → GraphBuildState
  | st, [] => st
  | st, .static c :: rest => addColumnNodes ((st.addNode (.staticColumn c false)).1) rest
  | st, .parser c :: rest => addColumnNodes ((st.addNode (.parserColumn c false)).1) rest
  | st, .lookup c :: rest =>
    let (st, lookupIndex) := st.addNode (.lookupColumn c false)
    addColumnNodes (addLookupKeys lookupIndex st c.keyColumns) rest

inductive CreateColumnGraphError where
  | processedKeyColumnUnknownTargetColumn (c : ColumnIdentifier)
  | columnCycle (c : ColumnIdentifier)
  /-- Models the `expect` panic when a synthesized unique staging identifier
  fails to re-parse. -/
  | panicInvalidUniqueIdentifier (e : ParseIdentifierError)
  /-- Models the `expect` panic when a node's table is missing from the
  fetched metadata map. -/
  | panicMissingTableMetadata
deriving DecidableEq, Repr

/-- The target search for one processed key (step 2): the first node, in index
order, that is a Static/Parser/Lookup variant, is not a dynamically added
(synthetic) node, and whose identifier equals the processed key's
`Column::identifier()` (its `key_column_identifier`). -/
def findProcessedKeyTarget (nodes : List (Nat × ColumnNode)) (dyn : List Nat)
    (pk : ProcessedKeyColumn) : Option Nat :=
  (nodes.find? (fun p =>
    (match p.2 with
     | .staticColumn _ _ => true
     | .parserColumn _ _ => true
     | .lookupColumn _ _ => true
     | _ => false)
    && !(dyn.contains p.1)
    && p.2.identifier == pk.keyColumnIdentifier)).map (fun p => p.1)

/-- Step 2 of `ColumnGraph::new`: collect one edge `target → processedKey`
per processed-key node (in node-index order), failing on the first key whose
target cannot be found. -/
def processedKeyEdges (nodes : List (Nat × ColumnNode)) (dyn : List Nat) :
    List (Nat × ColumnNode) → Except CreateColumnGraphError (List (Nat × Nat))
  | [] => .ok []
  | (keyIndex, .lookupColumnProcessedKeyColumn pk) :: rest =>
    match findProcessedKeyTarget nodes dyn pk with
    | some targetIndex =>
      match processedKeyEdges nodes dyn rest with
      | .error e => .error e
      | .ok pairs => .ok ((targetIndex, keyIndex) :: pairs)
    | none => .error (.processedKeyColumnUnknownTargetColumn pk.keyColumnIdentifier)
  | _ :: rest => processedKeyEdges nodes dyn rest

/-! ## Duplicate optimization

`ColumnGraph::new` groups the nodes by their full `ColumnNode` value
(`itertools::into_group_map` keyed on the node, whose derived `Hash`/`Eq`
covers every field, in particular the `map` flags).  For each group the first
node (lowest index — `node_references` iterates in index order) is kept, the
others have their edges redirected to it, their `map()` OR-ed into its
node-level flag, and are removed.  The Rust `HashMap::into_values` group order
is unspecified; the embedding processes groups in first-occurrence order,
which produces the same final node set and edge set because the by-value
groups are disjoint. -/

/-- Group the node indices by node value; groups in first-occurrence order,
members in index order (as produced by `into_group_map`). -/
def groupNodesByValue (nodes : List (Nat × ColumnNode)) : List (List Nat) :=
  (nodes.foldl
    (fun (acc : List (ColumnNode × List Nat)) p =>
      if acc.any (fun g => g.1 == p.2) then
        acc.map (fun g => if g.1 == p.2 then (g.1, g.2 ++ [p.1]) else g)
      else acc ++ [(p.2, [p.1])])
    []).map (fun g => g.2)

/-- Models `graph.update_edge`: add the edge only if not already present. -/
def updateEdge (edges : List (Nat × Nat)) (a b : Nat) : List (Nat × Nat) :=
  if edges.contains (a, b) then edges else edges ++ [(a, b)]

/-- The edge-redirection loop for one removed duplicate: iterate a snapshot of
the current edges; an edge out of the duplicate becomes `first → target`, an
edge into it becomes `source → first` (each via `update_edge`). -/
def redirectEdgesGo (first dup : Nat) :
    List (Nat × Nat) → List (Nat × Nat) → List (Nat × Nat)
  | [], acc => acc
  | (s, t) :: rest, acc =>
    if s == dup then redirectEdgesGo first dup rest (updateEdge acc first t)
    else if t == dup then redirectEdgesGo first dup rest (updateEdge acc s first)
    else redirectEdgesGo first dup rest acc

/-- OR a removed duplicate's `map()` into the survivor's node-level flag
(key-column variants are left unchanged, as in the source `_ => {}` arm). -/
def orMapInto (nodes : List (Nat × ColumnNode)) (first : Nat) (flag : Bool) :
    List (Nat × ColumnNode) :=
  nodes.map (fun p =>
    if p.1 == first then
      (p.1,
        match p.2 with
        | .staticColumn c m => .staticColumn c (m || flag)
        | .parserColumn c m => .parserColumn c (m || flag)
        | .lookupColumn c m => .lookupColumn c (m || flag)
        | other => other)
    else p)

/-- Collapse one duplicate into the group's first node: redirect edges, read
the duplicate's `map()`, OR it into the first node, then remove the duplicate
node and its incident edges (`StableDiGraph::remove_node`). -/
def collapseDuplicate (nodes : List (Nat × ColumnNode)) (edges : List (Nat × Nat))
    (first dup : Nat) : List (Nat × ColumnNode) × List (Nat × Nat) :=
  let edges := redirectEdgesGo first dup edges edges
  let flag := ((assocFind nodes dup).map ColumnNode.map).getD false
  let nodes := orMapInto nodes first flag
  (nodes.filter (fun p => p.1 != dup), edges.filter (fun e => e.1 != dup && e.2 != dup))

/-- Apply the duplicate optimization: for every by-value group with at least
two members, collapse each later member into the first. -/
def applyDuplicateOptimization (nodes : List (Nat × ColumnNode))
    (edges : List (Nat × Nat)) : List (Nat × ColumnNode) × List (Nat × Nat) :=
  (groupNodesByValue nodes).foldl
    (fun g grp =>
      match grp with
      | [] => g
      | first :: rest => rest.foldl (fun g dup => collapseDuplicate g.1 g.2 first dup) g)
    (nodes, edges)

/-! ## Topological grouping

`petgraph::algo::toposort_grouped(&graph, Eager)` comes from the project's
petgraph fork, whose sources are not part of this repository. -/

/-- Whether node `n` has no predecessor among the remaining nodes. -/
def noRemainingPred (edges : List (Nat × Nat)) (remaining : List Nat) (n : Nat) : Bool :=
  !(edges.any (fun e => e.2 == n && remaining.contains e.1))

/-- Modelled from the spec: `toposort_grouped` with the `Eager` strategy is
provided by the project's petgraph fork (not under this repository's `src/`).
The spec describes it as an eager layering: "group 0 = sources; each
subsequent group contains the nodes whose predecessors are all strictly
earlier", with a cycle reported through one of the nodes involved.  The fuel
argument (`remaining.length` at the top level) only guards termination: every
productive step removes at least one node, so the `0, n :: _` arm is reached
only on a cycle, which it reports like the exhausted-layer arm.  Which cycle
node is named is unspecified; the embedding names the first remaining node. -/
def toposortGo (edges : List (Nat × Nat)) :
    Nat → List Nat → Except Nat (List (List Nat))
  | _, [] => .ok []
  | 0, n :: _ => .error n
  | fuel + 1, n :: rest =>
    if ((n :: rest).filter (noRemainingPred edges (n :: rest))).isEmpty then .error n
    else
      match toposortGo edges fuel
          ((n :: rest).filter (fun m => !(noRemainingPred edges (n :: rest) m))) with
      | .error e => .error e
      | .ok groups =>
        .ok (((n :: rest).filter (noRemainingPred edges (n :: rest))) :: groups)

/-- Modelled from the spec: see `toposortGo`. -/
def toposortGrouped (nodes : List Nat) (edges : List (Nat × Nat)) :
    Except Nat (List (List Nat)) :=
  toposortGo edges nodes.length nodes

/-! ## Unique staging identifiers and metadata attachment -/

/-- The unique staging name of the node at index `i`:
`<unescaped part>_<node index>`. -/
def uniqueStagingName (n : ColumnNode) (i : Nat) : String :=
  n.identifier.partUnescaped ++ "_" ++ toString i

/-- Models `ColumnGraph::build_unique_identifiers`: each node's staging identifier is
`<unescaped part>_<node index>` re-wrapped as a column of the node's table.
The Rust `expect` on a failed re-parse is modelled as the error case. -/
def buildUniqueIdentifiers :
    List (Nat × ColumnNode) → Except ParseIdentifierError (List (Nat × ColumnIdentifier))
  | [] => .ok []
  | (i, n) :: rest =>
    match ColumnIdentifier.withTable n.identifier.toTable (uniqueStagingName n i) with
    | .error e => .error e
    | .ok uid =>
      match buildUniqueIdentifiers rest with
      | .error e => .error e
      | .ok uids => .ok ((i, uid) :: uids)

/-- Models `ColumnGraph::build_metadata`: look the node's table up in the fetched
metadata map (`expect` panic — modelled as the error case — when absent), then
the node's column, falling back to `defaultMetadata`. -/
def buildMetadata (tmd : TableMetadata) :
    List (Nat × ColumnNode) → Except Unit (List (Nat × BaseMetaDataColumn))
  | [] => .ok []
  | (i, n) :: rest =>
    match assocFind tmd n.identifier.toTable with
    | none => .error ()
    | some tableCols =>
      match buildMetadata tmd rest with
      | .error e => .error e
      | .ok mds => .ok ((i, (assocFind tableCols n.identifier).getD defaultMetadata) :: mds)

/-! ## The assembled graph -/

structure ColumnGraph where
  nodes : List (Nat × ColumnNode)
  edges : List (Nat × Nat)
  groups : List (List Nat)
  uniqueIdentifiers : List (Nat × ColumnIdentifier)
  metadata : List (Nat × BaseMetaDataColumn)
deriving Repr

/-- The tail of `ColumnGraph::new` after the (possibly skipped) duplicate
optimization: topologically group the node indices over the edges, then
attach unique identifiers and metadata. -/
def columnGraphAssemble (ne : List (Nat × ColumnNode) × List (Nat × Nat))
    (tmd : TableMetadata) : Except CreateColumnGraphError ColumnGraph :=
  match toposortGrouped (ne.1.map (fun p => p.1)) ne.2 with
  | .error cycleIndex =>
    .error (.columnCycle
      (((assocFind ne.1 cycleIndex).map ColumnNode.identifier).getD
        { full := "", separatorSchemaTable := 0, separatorTableColumn := 0 }))
  | .ok groups =>
    match buildUniqueIdentifiers ne.1 with
    | .error e => .error (.panicInvalidUniqueIdentifier e)
    | .ok uniqueIdentifiers =>
      match buildMetadata tmd ne.1 with
      | .error _ => .error .panicMissingTableMetadata
      | .ok metadata =>
        .ok { nodes := ne.1, edges := ne.2, groups, uniqueIdentifiers, metadata }

/-- Models `ColumnGraph::new`: add nodes (step 1), add processed-key edges (step 2),
apply the duplicate optimization unless disabled, topologically group,
then attach unique identifiers and metadata. -/
def ColumnGraph.new (tm : TableMapper) (tmd : TableMetadata)
    (importOptions : ImportOptions) : Except CreateColumnGraphError ColumnGraph :=
  let st := addColumnNodes GraphBuildState.empty tm.columns
  match processedKeyEdges st.nodes st.dynamicIndices st.nodes with
  | .error e => .error e
  | .ok pkEdges =>
    columnGraphAssemble
      (if !importOptions.noDuplicateOptimization then
        applyDuplicateOptimization st.nodes (st.edges ++ pkEdges)
      else (st.nodes, st.edges ++ pkEdges))
      tmd

/-- Models `IndexedColumnNode`. -/
structure IndexedColumnNode where
  index : Nat
  column : ColumnNode
  uniqueIdentifier : ColumnIdentifier
  metadata : BaseMetaDataColumn
deriving DecidableEq, Repr

/-- Assemble the `IndexedColumnNode` view of node `i` (the Rust accessors
index the side maps directly; for nodes of a successfully built graph the
lookups always succeed). -/
def ColumnGraph.indexed (g : ColumnGraph) (i : Nat) : Option IndexedColumnNode :=
  match assocFind g.nodes i, assocFind g.uniqueIdentifiers i, assocFind g.metadata i with
  | some column, some uniqueIdentifier, some metadata =>
    some { index := i, column, uniqueIdentifier, metadata }
  | _, _, _ => none

/-- Models `ColumnGraph::target_columns`: the indexed view of every node with
`map() == true`, in node-index order. -/
def ColumnGraph.targetColumns (g : ColumnGraph) : List IndexedColumnNode :=
  g.nodes.filterMap (fun p => if p.2.map then g.indexed p.1 else none)

/-- Models `ColumnGraph::groups`: the indexed view of the topological groups. -/
def ColumnGraph.groupsIndexed (g : ColumnGraph) : List (List IndexedColumnNode) :=
  g.groups.map (fun grp => grp.filterMap g.indexed)

/-- The topological group index of node `i`. -/
def ColumnGraph.groupIndexOf (g : ColumnGraph) (i : Nat) : Option Nat :=
  ((g.groups.enum.find? (fun p => p.2.contains i)).map (fun p => p.1))

/-- The well-indexedness invariant of graph construction: node indices are
below the allocation counter and pairwise distinct. -/
def GraphBuildState.wellIndexed (st : GraphBuildState) : Prop :=
  (∀ p ∈ st.nodes, p.1 < st.next) ∧ (st.nodes.map Prod.fst).Nodup

/-! # Temporary (staging) table (src/temporary_table.rs) -/

/-- Models `itertools::Position`. -/
inductive ItPosition where
  | first | middle | last | only
deriving DecidableEq, Repr

def withPositionTail {α : Type} : List α → List (ItPosition × α)
  | [] => []
  | [x] => [(.last, x)]
  | x :: y :: rest => (.middle, x) :: withPositionTail (y :: rest)

/-- Models `Itertools::with_position`. -/
def withPosition {α : Type} : List α → List (ItPosition × α)
  | [] => []
  | [x] => [(.only, x)]
  | x :: y :: rest => (.first, x) :: withPositionTail (y :: rest)

/-- Models `"[import]".parse()` (verbatim bracketed part). -/
def importSchema : SchemaIdentifier := { full := "[import]" }

/-- The column clauses of the staging CREATE statement, one triple
`(column name, SQL type, declared NULL?)` per non-transient node, walking the
topological groups with their `Position`: a column is NULL when its metadata
is nullable or its group's position is `Middle` or `Last`.  This models the
formatted `"{name} {type} {NULL|NOT NULL}"` strings of the source. -/
def stagingEntryOf (nullExtra : Bool) (node : IndexedColumnNode) :
    Option (String × TypeInfo × Bool) :=
  if !node.column.isTransient then
    some (node.uniqueIdentifier.part, node.metadata.ty,
      node.metadata.flags.nullable || nullExtra)
  else none

/-- The column-clause list itself, walking the groups with their
`Position` as the source does. -/
def temporaryTableColumns (g : ColumnGraph) : List (String × TypeInfo × Bool) :=
  ((withPosition g.groupsIndexed).map (fun pg =>
    pg.2.filterMap
      (stagingEntryOf (pg.1 == ItPosition.middle || pg.1 == ItPosition.last)))).flatten

/-- The staging column clause contributed by node `i`, phrased node-wise:
`none` for transient nodes, otherwise the clause with the NULL flag
`metadata nullable ∨ the node's topological group index ≥ 1` — the shape
claim C6 ascribes to the CREATE statement. -/
def stagingEntryAt (g : ColumnGraph) (i : Nat) : Option (String × TypeInfo × Bool) :=
  (g.indexed i).bind (stagingEntryOf (decide (1 ≤ (g.groupIndexOf i).getD 0)))

structure TemporaryTable where
  identifier : TableIdentifier
  /-- The column clauses of the executed CREATE statement (the Rust struct
  retains only the identifier; the clauses are kept here so the statement
  shape is observable). -/
  columns : List (String × TypeInfo × Bool)
deriving DecidableEq, Repr

inductive CreateTemporaryTableError where
  | noNonTransientColumns
  /-- Models the `expect` panic when the staging-table identifier fails to
  build; `CreateTableFailed` (a driver error) is external I/O and not
  modelled. -/
  | panicInvalidIdentifier (e : ParseIdentifierError)
deriving DecidableEq, Repr

/-- Models `TemporaryTable::new`: staging identifier `[import].<target unescaped>`;
one column clause per non-transient node; `NoNonTransientColumns` (before any
statement is issued) when no clause remains. -/
def TemporaryTable.new (target : TableIdentifier) (g : ColumnGraph) :
    Except CreateTemporaryTableError TemporaryTable :=
  match TableIdentifier.withSchema importSchema target.partUnescaped with
  | .error e => .error (.panicInvalidIdentifier e)
  | .ok tableIdentifier =>
    if (temporaryTableColumns g).isEmpty then .error .noNonTransientColumns
    else .ok { identifier := tableIdentifier, columns := temporaryTableColumns g }

/-! # Insert processor (src/insert_processor.rs)

The cell values sent over the bulk channel.  For the float and decimal
variants the numeric payload is abstracted by the accepted source text
(IEEE-754 and 96-bit decimal arithmetic are not modelled); parse
success/failure and NULL-ness — all the claims concern — are exact. -/

inductive ColumnData where
  | u8 (v : Option Nat)
  | i16 (v : Option Int)
  | i32 (v : Option Int)
  | i64 (v : Option Int)
  | f32 (v : Option String)
  | f64 (v : Option String)
  | bit (v : Option Bool)
  | string (v : Option String)
  | numeric (v : Option String)
deriving DecidableEq, Repr

def ColumnData.isNull : ColumnData → Bool
  | .u8 v => v.isNone
  | .i16 v => v.isNone
  | .i32 v => v.isNone
  | .i64 v => v.isNone
  | .f32 v => v.isNone
  | .f64 v => v.isNone
  | .bit v => v.isNone
  | .string v => v.isNone
  | .numeric v => v.isNone

/-- A nonempty all-digit run, as consumed by Rust integer `from_str`. -/
def parseDigits (cs : List Char) : Option Nat :=
  if cs.isEmpty then none else go cs 0
where
  go : List Char → Nat → Option Nat
  | [], acc => some acc
  | c :: rest, acc =>
    if c.isDigit then go rest (acc * 10 + (c.toNat - ('0').toNat)) else none

/-- Rust signed-integer `from_str`: optional sign, nonempty digits, value in
range (overflow is a parse error). -/
def rustParseSigned (lo hi : Int) (s : String) : Option Int :=
  match s.data with
  | '+' :: rest => core rest false
  | '-' :: rest => core rest true
  | cs => core cs false
where
  core (cs : List Char) (neg : Bool) : Option Int :=
    match parseDigits cs with
    | none => none
    | some n =>
      let v : Int := if neg then -(n : Int) else (n : Int)
      if lo ≤ v && v ≤ hi then some v else none

/-- Rust unsigned-integer `from_str`: optional `+`, nonempty digits, in range
(`-` is rejected for unsigned types). -/
def rustParseUnsigned (hi : Nat) (s : String) : Option Nat :=
  match s.data with
  | '+' :: rest => (parseDigits rest).filter (fun n => n ≤ hi)
  | cs => (parseDigits cs).filter (fun n => n ≤ hi)

/-- Rust `bool::from_str`: exactly `"true"` or `"false"`. -/
def rustParseBool (s : String) : Option Bool :=
  if s == "true" then some true else if s == "false" then some false else none

def asciiToLower (c : Char) : Char :=
  if 'A' ≤ c && c ≤ 'Z' then Char.ofNat (c.toNat + 32) else c

/-- Consume a leading digit run, returning its length and the rest. -/
def takeDigits : List Char → Nat × List Char
  | [] => (0, [])
  | c :: rest =>
    if c.isDigit then
      let (n, rest) := takeDigits rest
      (n + 1, rest)
    else (0, c :: rest)

/-- The `Number` production of Rust float `from_str`:
`Digits ('.' Digits?)? | '.' Digits`; returns the unconsumed rest. -/
def floatNumber (cs : List Char) : Option (List Char) :=
  match takeDigits cs with
  | (0, _) =>
    match cs with
    | '.' :: rest =>
      match takeDigits rest with
      | (0, _) => none
      | (_, rest) => some rest
    | _ => none
  | (_, rest) =>
    match rest with
    | '.' :: rest2 =>
      let (_, rest3) := takeDigits rest2
      some rest3
    | _ => some rest

/-- Whether Rust `f32::from_str`/`f64::from_str` accepts the string: optional
sign, then (case-insensitively) `inf`/`infinity`/`nan` or a number with an
optional exponent.  Rust float parsing never fails for range reasons
(overflow saturates to infinity), so grammar acceptance is parse success. -/
def floatParses (s : String) : Bool :=
  let cs :=
    match s.data with
    | '+' :: rest => rest
    | '-' :: rest => rest
    | cs => cs
  let lower := cs.map asciiToLower
  if lower == "inf".data || lower == "infinity".data || lower == "nan".data then true
  else
    match floatNumber cs with
    | none => false
    | some [] => true
    | some (e :: rest) =>
      if e == 'e' || e == 'E' then
        let rest :=
          match rest with
          | '+' :: r => r
          | '-' :: r => r
          | r => r
        match takeDigits rest with
        | (0, _) => false
        | (_, rest) => rest.isEmpty
      else false

/-- Whether `rust_decimal::Decimal::from_str` accepts the string: optional
sign, then digits with optional `_` separators and at most one decimal point,
at least one digit, no exponent.  (rust_decimal additionally rejects
mantissas beyond 96 bits; that overflow case is not modelled.) -/
def decimalParses (s : String) : Bool :=
  let cs :=
    match s.data with
    | '+' :: rest => rest
    | '-' :: rest => rest
    | cs => cs
  go cs false 0
where
  go : List Char → Bool → Nat → Bool
  | [], _, d => decide (0 < d)
  | c :: rest, seenDot, d =>
    if c.isDigit then go rest seenDot (d + 1)
    else if c == '_' then go rest seenDot d
    else if c == '.' then (if seenDot then false else go rest true d)
    else false

/-- The per-cell coercion table of `InsertProcessor::process_record`:
`none` models the `panic!("Unsupported … type")` arms. -/
def coerceColumnData (ty : TypeInfo) (v : String) : Option ColumnData :=
  match ty with
  | .fixedLen f =>
    match f with
    | .null => some (.bit none)
    | .int1 => some (.u8 (rustParseUnsigned 255 v))
    | .bit => some (.bit (rustParseBool v))
    | .int2 => some (.i16 (rustParseSigned (-(2 ^ 15)) (2 ^ 15 - 1) v))
    | .int4 => some (.i32 (rustParseSigned (-(2 ^ 31)) (2 ^ 31 - 1) v))
    | .float4 => some (.f32 (if floatParses v then some v else none))
    | .float8 => some (.f64 (if floatParses v then some v else none))
    | .int8 => some (.i64 (rustParseSigned (-(2 ^ 63)) (2 ^ 63 - 1) v))
    | _ => none
  | .varLenSized vt _ =>
    match vt with
    | .bigVarChar => some (.string (some v))
    | .nVarchar => some (.string (some v))
    | _ => none
  | .varLenSizedPrecision vt _ _ _ =>
    match vt with
    | .decimaln => some (.numeric (if decimalParses v then some v else none))
    | .numericn => some (.numeric (if decimalParses v then some v else none))
    | .money => some (.numeric (if decimalParses v then some v else none))
    | _ => none
  | .xml => none

/-- Models `InsertProcessor::new`: extract `(ParserColumn, staging identifier,
metadata)` from every group-0 node; a non-Parser node hits the
`unreachable!("Expected only parser columns in the first column graph
group.")` panic, modelled as `none`. -/
def insertProcessorTargetColumns (columns : List IndexedColumnNode) :
    Option (List (ParserColumn × ColumnIdentifier × BaseMetaDataColumn))
  := go columns
where
  go : List IndexedColumnNode → Option (List (ParserColumn × ColumnIdentifier × BaseMetaDataColumn))
  | [] => some []
  | c :: rest =>
    match c.column with
    | .parserColumn p _ => (go rest).map (fun l => (p, c.uniqueIdentifier, c.metadata) :: l)
    | _ => none

/-- A record's key→value view (`DataSourceRecord` field lookup). -/
abbrev RecordFields : Type := List (String × String)

inductive ProcessRecordOutcome where
  /-- One of the `panic!("Unsupported … type")` arms was reached. -/
  | panicUnsupportedType
  /-- Models `ProcessRecordError::RecordMissingField`; the record is not sent. -/
  | errorRecordMissingField (field : String) (column : ColumnIdentifier)
  /-- The row was pushed onto the bulk channel (`bulk_insert.send(row)`). -/
  | sent (row : List ColumnData)
deriving DecidableEq, Repr

/-- Models `InsertProcessor::process_record`: per target column, look the source
field up by its declared name (missing ⇒ row error), coerce it (unsupported
type ⇒ panic), and send the assembled row.  `SendRowFailed` is external
driver I/O and not modelled. -/
def processRecord
    (targetColumns : List (ParserColumn × ColumnIdentifier × BaseMetaDataColumn))
    (record : RecordFields) : ProcessRecordOutcome :=
  go targetColumns []
where
  go : List (ParserColumn × ColumnIdentifier × BaseMetaDataColumn) → List ColumnData →
      ProcessRecordOutcome
  | [], row => .sent row
  | (pc, _, md) :: rest, row =>
    match assocFind record pc.fieldName with
    | none => .errorRecordMissingField pc.fieldName pc.columnIdentifier
    | some fieldValue =>
      match coerceColumnData md.ty fieldValue with
      | none => .panicUnsupportedType
      | some cd => go rest (row ++ [cd])

/-! # Merge processor (src/merge_processor.rs) -/

inductive MergeProcessorError where
  | keyColumnUnknownTargetColumn (c : ColumnIdentifier)
deriving DecidableEq, Repr

/-- Locate each declared key column among the target columns (the first node
whose identifier equals it), failing with `KeyColumnUnknownTargetColumn`.
The Rust `HashMap` is modelled as an association list in key order. -/
def mergeIndexedKeyColumns (keyColumns : List ColumnIdentifier)
    (columns : List IndexedColumnNode) :
    Except MergeProcessorError (List (ColumnIdentifier × IndexedColumnNode)) :=
  match keyColumns with
  | [] => .ok []
  | k :: rest =>
    match columns.find? (fun c => k == c.column.identifier) with
    | some c =>
      match mergeIndexedKeyColumns rest columns with
      | .error e => .error e
      | .ok l => .ok ((k, c) :: l)
    | none => .error (.keyColumnUnknownTargetColumn k)

/-- The `ON` pairs `(target key part, staging part)`.  The source iterates the
key `HashMap` in unspecified order; modelled in declared key order. -/
def mergeOnKeyColumns (keys : List (ColumnIdentifier × IndexedColumnNode)) :
    List (String × String) :=
  keys.map (fun k => (k.1.part, k.2.uniqueIdentifier.part))

/-- The `UPDATE SET` pairs `(target part, staging part)`: identity-flagged
and key columns are excluded. -/
def mergeSetUpdateColumns (keys : List (ColumnIdentifier × IndexedColumnNode))
    (columns : List IndexedColumnNode) : List (String × String) :=
  columns.filterMap (fun c =>
    if c.metadata.flags.eqIdentityOnly
        || keys.any (fun k => k.1 == c.column.identifier) then none
    else some (c.column.identifier.part, c.uniqueIdentifier.part))

/-- The `INSERT (...)` column list: identity-flagged and transient columns
are excluded. -/
def mergeInsertColumnsTarget (columns : List IndexedColumnNode) : List String :=
  columns.filterMap (fun c =>
    if c.metadata.flags.eqIdentityOnly || c.column.isTransient then none
    else some c.column.identifier.part)

/-- The `VALUES (...)` list: only identity-flagged columns are excluded
(staging parts of every remaining target column). -/
def mergeInsertColumnsTemporary (columns : List IndexedColumnNode) : List String :=
  columns.filterMap (fun c =>
    if c.metadata.flags.eqIdentityOnly then none
    else some c.uniqueIdentifier.part)

/-! # Orchestrator (src/import_executor.rs) -/

/-- The statements a mapper run issues against the server, in order. -/
inductive MapperPhase where
  | insertPhase
  | updatePhase (groupIndex : Nat)
  | mergePhase
  | dropPhase
deriving DecidableEq, Repr

/-- The phase schedule of `execute_table_mapper`: the first (or only)
topological group runs the insert processor, every later group an update
phase, and the merge processor runs unconditionally afterwards — the
function does not receive the import options at all. -/
def executeTableMapperPhases (groups : List (List Nat)) : List MapperPhase :=
  ((withPosition groups.enum).map (fun pg =>
    match pg.1 with
    | .first => MapperPhase.insertPhase
    | .only => MapperPhase.insertPhase
    | _ => MapperPhase.updatePhase pg.2.1)) ++ [MapperPhase.mergePhase]

/-- One mapper iteration of `import_executor`, statement-level: the phases of
`execute_table_mapper` followed by `TemporaryTable::finalize`, which drops
the staging table unless `no_drop`. -/
def importExecutorMapperPhases (importOptions : ImportOptions)
    (groups : List (List Nat)) : List MapperPhase :=
  executeTableMapperPhases groups ++
    (if !importOptions.noDrop then [MapperPhase.dropPhase] else [])

/-- Opaque driver error (`tiberius::error::Error`). -/
structure DbError where
  msg : String
deriving DecidableEq, Repr

/-- Opaque `ExecuteTableMapperError` (which phase of the mapper run failed
is irrelevant to the claims). -/
structure ExecuteTableMapperError where
  msg : String
deriving DecidableEq, Repr

inductive ImportExecutorMapperError where
  | finalizeTemporaryTable (e : DbError)
  | executeTableMapper (e : ExecuteTableMapperError)
deriving DecidableEq, Repr

/-- Models `TemporaryTable::finalize`: issue the DROP (whose outcome is the given
driver result) unless `no_drop` is set. -/
def temporaryTableFinalize (noDrop : Bool) (dropResult : Except DbError Unit) :
    Except DbError Unit :=
  if !noDrop then dropResult else .ok ()

/-- The tail of one mapper iteration in `import_executor` (lines 119–137):
run `execute_table_mapper` (outcome `result`), then finalize the staging
table; a finalize error is returned first, otherwise the mapper outcome. -/
def importExecutorMapperEpilogue (importOptions : ImportOptions)
    (result : Except ExecuteTableMapperError Unit)
    (dropResult : Except DbError Unit) : Except ImportExecutorMapperError Unit :=
  match temporaryTableFinalize importOptions.noDrop dropResult with
  | .error e => .error (.finalizeTemporaryTable e)
  | .ok _ =>
    match result with
    | .error e => .error (.executeTableMapper e)
    | .ok _ => .ok ()

/-! # Data-source streams
(src/delimited_data_source/delimited_data_source_stream.rs and
src/xml_data_source/xml_data_source_stream.rs)

The byte-level tokenizers (`csv_core`, `quick_xml`) are out-of-scope
collaborators; the streams are modelled over their event sequences, which is
exactly what the two `poll_next` loops consume.  `record_number` is
`Option<NonZero<u64>>` in the source, modelled as a `Nat` with `0` for `None`
(`optOfNat` recovers the `Option` view).  Line-number bookkeeping is not
modelled; claim C8 concerns `record_number` only. -/

def optOfNat (n : Nat) : Option Nat := if n = 0 then none else some n

inductive ParseRecordError where
  | tooFewFields
  | tooManyFields
deriving DecidableEq, Repr

/-- One outcome of the delimited reader underlying a stream item: a
`fill_buf` I/O error, a complete csv record (on which
`create_data_source_record` either yields field data or a
`TooFewFields`/`TooManyFields` error), or end of input. -/
inductive DelimitedEvent where
  | ioError
  | record (parsed : Except ParseRecordError RecordFields)
  | endOfStream
deriving Repr

inductive DelimitedItem where
  | okRecord (recordNumber : Nat) (fields : RecordFields)
  | parseErr (recordNumber : Nat)
  | ioErr (recordNumber : Option Nat)
deriving Repr

/-- The delimited stream: `ReadRecordResult::Record` first advances
`record_number` (`None → 1`, `Some r → r + 1`) and then emits either the
record or the per-record parse error, both carrying the advanced number; a
`fill_buf` error emits an error carrying the unchanged number; `End` ends the
stream. -/
def delimitedRun : Nat → List DelimitedEvent → List DelimitedItem
  | _, [] => []
  | rn, .ioError :: rest => .ioErr (optOfNat rn) :: delimitedRun rn rest
  | rn, .record parsed :: rest =>
    (match parsed with
     | .ok fields => DelimitedItem.okRecord (rn + 1) fields
     | .error _ => DelimitedItem.parseErr (rn + 1)) :: delimitedRun (rn + 1) rest
  | _, .endOfStream :: _ => []

/-- The numbering discipline claim C8 describes, relative to a running
counter: every emitted record — successful or per-record error — carries
exactly the counter plus one and advances it by one (so the next success is
one past the last success plus the intervening consumed positions), while an
I/O error carries the unchanged counter and does not advance it. -/
def delimitedWellNumbered : Nat → List DelimitedItem → Prop
  | _, [] => True
  | rn, .okRecord n _ :: rest => n = rn + 1 ∧ delimitedWellNumbered (rn + 1) rest
  | rn, .parseErr n :: rest => n = rn + 1 ∧ delimitedWellNumbered (rn + 1) rest
  | rn, .ioErr n :: rest => n = optOfNat rn ∧ delimitedWellNumbered rn rest

def DelimitedItem.consumes : DelimitedItem → Bool
  | .okRecord _ _ => true
  | .parseErr _ => true
  | .ioErr _ => false

/-- The record numbers of the emitted records (successful and per-record
error), in order. -/
def delimitedConsumingNumbers (items : List DelimitedItem) : List Nat :=
  items.filterMap (fun i =>
    match i with
    | .okRecord n _ => some n
    | .parseErr n => some n
    | .ioErr _ => none)

/-! ## XML stream -/

/-- One `quick_xml` event as consumed by the XML `poll_next` loop.  `raw` is
the serialized tag content; `generalRef` carries `none` when entity decoding
fails.  UTF-8 re-interpretation errors are not modelled (Lean strings are
already unicode). -/
inductive XmlEvent where
  | startTag (localName : String) (raw : String)
  | endTag (raw : String)
  | text (s : String)
  | emptyTag (raw : String)
  | generalRef (decoded : Option String)
  | cdata (s : String)
  | eof
  | xmlError
deriving Repr

/-- The captured record: the contiguous value buffer plus the
`StringMap` end-offset index, in field-encounter order. -/
structure XmlRecord where
  data : String
  fieldIndices : List (String × Nat)
deriving DecidableEq, Repr

/-- The reader state (`XmlDataSource` fields mutated by `poll_next`). -/
structure XmlState where
  depth : Nat
  recordNumber : Nat
  currentData : String
  currentFieldIndices : List (String × Nat)
  currentFieldIndex : Option Nat
  currentFieldStart : Nat
deriving DecidableEq, Repr

def XmlState.initial : XmlState :=
  { depth := 0, recordNumber := 0, currentData := "",
    currentFieldIndices := [], currentFieldIndex := none, currentFieldStart := 0 }

inductive XmlErrKind where
  | unexpectedStartTag (name : String)
  | unknownField (name : String)
  | xmlError
  | decodeError
deriving DecidableEq, Repr

/-- Models `IndexMap::insert`: replace in place when present, append otherwise. -/
def indexMapInsert (m : List (String × Nat)) (k : String) (v : Nat) :
    List (String × Nat) :=
  if m.any (fun p => p.1 == k) then m.map (fun p => if p.1 == k then (k, v) else p)
  else m ++ [(k, v)]

inductive XmlStepResult where
  | continueStep (st : XmlState)
  | emitOk (st : XmlState) (record : XmlRecord)
  | emitErr (st : XmlState) (kind : XmlErrKind)
  | eofReached
  /-- The `unreachable!` for an unexpected end tag. -/
  | panicStep
deriving Repr

/-- One iteration of the XML `poll_next` event loop. -/
def xmlStep (selectorParts : List String) (fields : List String)
    (st : XmlState) (ev : XmlEvent) : XmlStepResult :=
  match ev with
  | .xmlError => .emitErr st .xmlError
  | .startTag name raw =>
    let st := { st with depth := st.depth + 1 }
    if st.depth ≤ selectorParts.length then
      if (selectorParts.get? (st.depth - 1)).getD "" ≠ name then
        .emitErr st (.unexpectedStartTag name)
      else .continueStep st
    else
      if st.depth - selectorParts.length == 1 then
        match fields.findIdx? (fun f => f == name) with
        | some fieldIndex => .continueStep { st with currentFieldIndex := some fieldIndex }
        | none => .emitErr st (.unknownField name)
      else .continueStep { st with currentData := st.currentData ++ "<" ++ raw ++ ">" }
  | .endTag raw =>
    let st := { st with depth := st.depth - 1 }
    if st.depth > selectorParts.length then
      .continueStep { st with currentData := st.currentData ++ "</" ++ raw ++ ">" }
    else if st.depth == selectorParts.length then
      match st.currentFieldIndex with
      | some fieldIndex =>
        match fields.get? fieldIndex with
        | some fieldName =>
          .continueStep { st with
            currentFieldIndices :=
              indexMapInsert st.currentFieldIndices fieldName st.currentData.length,
            currentFieldStart := st.currentData.length,
            currentFieldIndex := none }
        | none => .panicStep
      | none => .panicStep
    else if st.depth == selectorParts.length - 1 then
      .emitOk
        { depth := st.depth, recordNumber := st.recordNumber + 1, currentData := "",
          currentFieldIndices := [], currentFieldIndex := none, currentFieldStart := 0 }
        { data := st.currentData, fieldIndices := st.currentFieldIndices }
    else .continueStep st
  | .text s =>
    if st.currentFieldIndex.isSome then
      .continueStep { st with currentData := st.currentData ++ s }
    else .continueStep st
  | .emptyTag raw =>
    if st.currentFieldIndex.isSome then
      .continueStep { st with currentData := st.currentData ++ "<" ++ raw ++ "/>" }
    else .continueStep st
  | .generalRef decoded =>
    if st.currentFieldIndex.isSome then
      match decoded with
      | some s => .continueStep { st with currentData := st.currentData ++ s }
      | none => .emitErr st .decodeError
    else .continueStep st
  | .cdata s =>
    if st.currentFieldIndex.isSome then
      .continueStep { st with currentData := st.currentData ++ s }
    else .continueStep st
  | .eof => .eofReached

inductive XmlItem where
  | okRecord (recordNumber : Nat) (record : XmlRecord)
  | errItem (recordNumber : Option Nat) (kind : XmlErrKind)
deriving Repr

/-- The XML stream over an event sequence: errors are emitted with the
current (unchanged) `record_number`; a completed record advances it.  A
panic or `Eof` ends the stream. -/
def xmlRun (selectorParts : List String) (fields : List String) :
    XmlState → List XmlEvent → List XmlItem
  | _, [] => []
  | st, ev :: rest =>
    match xmlStep selectorParts fields st ev with
    | .continueStep st' => xmlRun selectorParts fields st' rest
    | .emitOk st' record =>
      .okRecord st'.recordNumber record :: xmlRun selectorParts fields st' rest
    | .emitErr st' kind =>
      .errItem (optOfNat st'.recordNumber) kind :: xmlRun selectorParts fields st' rest
    | .eofReached => []
    | .panicStep => []

/-- C8's numbering discipline for the XML stream: a successful record carries
the counter plus one and advances it; an error carries the unchanged counter
and does not advance it (so errors never advance `record_number` at all). -/
def xmlWellNumbered : Nat → List XmlItem → Prop
  | _, [] => True
  | rn, .okRecord n _ :: rest => n = rn + 1 ∧ xmlWellNumbered (rn + 1) rest
  | rn, .errItem n _ :: rest => n = optOfNat rn ∧ xmlWellNumbered rn rest

def xmlSuccessNumbers (items : List XmlItem) : List Nat :=
  items.filterMap (fun i =>
    match i with
    | .okRecord n _ => some n
    | .errItem _ _ => none)

def XmlItem.isSuccess : XmlItem → Bool
  | .okRecord _ _ => true
  | .errItem _ _ => false

/-! # Claim C1

The claim: every group-0 node is a Parser variant, so the non-Parser
`unreachable!` in `InsertProcessor::new` is never executed — "in particular
this must hold for a mapper that declares a Static column, since Static nodes
have no incoming edges".  But a Static node, having no incoming edges, is a
source and lands in group 0, where it is *not* a Parser variant: the very
input the claim names makes `InsertProcessor::new` reach its `unreachable!`
panic.  The code contradicts its own assertion; the concrete run below
evaluates the embedded pipeline on a mapper with one Static and one Parser
column. -/

def tableT_c1 : TableIdentifier := { full := "[dbo].[T]", separatorSchemaTable := 5 }

def colS_c1 : ColumnIdentifier :=
  { full := "[dbo].[T].[S]", separatorSchemaTable := 5, separatorTableColumn := 9 }

def colP_c1 : ColumnIdentifier :=
  { full := "[dbo].[T].[P]", separatorSchemaTable := 5, separatorTableColumn := 9 }

def mapperC1 : TableMapper :=
  { tableIdentifier := tableT_c1,
    columns := [.static { columnIdentifier := colS_c1, mapColumn := false, value := "v" },
                .parser { columnIdentifier := colP_c1, mapColumn := false, fieldName := "f" }],
    keyColumns := [] }

def tmdC1 : TableMetadata := [(tableT_c1, [])]

def graphC1 : ColumnGraph :=
  (ColumnGraph.new mapperC1 tmdC1 ImportOptions.default).toOption.getD
    { nodes := [], edges := [], groups := [], uniqueIdentifiers := [], metadata := [] }

/-! # Claim C5

The claim: duplicate optimization groups nodes by content *ignoring* the
`map` flag, so two otherwise-identical Parser columns differing only in `map`
collapse into one node with the OR of the flags.  The source groups by the
full derived `Hash`/`Eq` of `ColumnNode`, which includes the `map` flags, so
such a pair is never grouped and both nodes survive; the flag-OR into the
survivor (which only ever sees groups of fully equal nodes) can never change
anything.  The spec's rule is what the surviving `map_column`-OR mechanism is
evidently for, so the grouping key is the slip. -/

def tableT_c5 : TableIdentifier := { full := "[dbo].[T]", separatorSchemaTable := 5 }

def colP_c5 : ColumnIdentifier :=
  { full := "[dbo].[T].[P]", separatorSchemaTable := 5, separatorTableColumn := 9 }

/-- Two Parser columns identical except for the `map` flag. -/
def mapperC5diff : TableMapper :=
  { tableIdentifier := tableT_c5,
    columns := [.parser { columnIdentifier := colP_c5, mapColumn := false, fieldName := "f" },
                .parser { columnIdentifier := colP_c5, mapColumn := true, fieldName := "f" }],
    keyColumns := [] }

/-- Two fully identical Parser columns. -/
def mapperC5same : TableMapper :=
  { tableIdentifier := tableT_c5,
    columns := [.parser { columnIdentifier := colP_c5, mapColumn := false, fieldName := "f" },
                .parser { columnIdentifier := colP_c5, mapColumn := false, fieldName := "f" }],
    keyColumns := [] }

def tmdC5 : TableMetadata := [(tableT_c5, [])]

/-! # Claim C3

The claim: in the emitted MERGE, identity columns appear in neither SET nor
INSERT, transient columns are excluded from the INSERT column list, and the
VALUES list consists of exactly the staging counterparts of the INSERT
columns (same columns, same order, same length).  The source excludes
transient columns from the INSERT list but only identity columns from the
VALUES list, so a mapped transient (Static) column leaves the two lists of
different lengths — the incompleteness the source's own TODO comment flags
("probably missing handling of static columns here, since they are
transient"). -/

def tableT_c3 : TableIdentifier := { full := "[dbo].[T]", separatorSchemaTable := 5 }

def colA_c3 : ColumnIdentifier :=
  { full := "[dbo].[T].[A]", separatorSchemaTable := 5, separatorTableColumn := 9 }

def colB_c3 : ColumnIdentifier :=
  { full := "[dbo].[T].[B]", separatorSchemaTable := 5, separatorTableColumn := 9 }

/-- A mapped Static column `B` next to a mapped Parser column `A` (the key). -/
def mapperC3 : TableMapper :=
  { tableIdentifier := tableT_c3,
    columns := [.static { columnIdentifier := colB_c3, mapColumn := true, value := "v" },
                .parser { columnIdentifier := colA_c3, mapColumn := true, fieldName := "f" }],
    keyColumns := [colA_c3] }

def tmdC3 : TableMetadata := [(tableT_c3, [])]

def graphC3 : ColumnGraph :=
  (ColumnGraph.new mapperC3 tmdC3 ImportOptions.default).toOption.getD
    { nodes := [], edges := [], groups := [], uniqueIdentifiers := [], metadata := [] }

/-! # Claim C7

Bulk-insert type coercion: parse-failure ⇒ NULL cell, record still sent;
big-char/NVARCHAR pass through; anything else is a fatal unsupported type. -/

/-- The types whose cell is produced by parsing the field text (fixed-length
numerics, bit, floats, and decimal/numeric/money). -/
def parseCoercedTy : TypeInfo → Bool
  | .fixedLen .int1 => true
  | .fixedLen .bit => true
  | .fixedLen .int2 => true
  | .fixedLen .int4 => true
  | .fixedLen .float4 => true
  | .fixedLen .float8 => true
  | .fixedLen .int8 => true
  | .varLenSizedPrecision .decimaln _ _ _ => true
  | .varLenSizedPrecision .numericn _ _ _ => true
  | .varLenSizedPrecision .money _ _ _ => true
  | _ => false

/-- Whether the field text parses for a parse-coerced type (vacuously true
for the other types). -/
def fieldParseSucceeds (ty : TypeInfo) (v : String) : Bool :=
  match ty with
  | .fixedLen .int1 => (rustParseUnsigned 255 v).isSome
  | .fixedLen .bit => (rustParseBool v).isSome
  | .fixedLen .int2 => (rustParseSigned (-(2 ^ 15)) (2 ^ 15 - 1) v).isSome
  | .fixedLen .int4 => (rustParseSigned (-(2 ^ 31)) (2 ^ 31 - 1) v).isSome
  | .fixedLen .float4 => floatParses v
  | .fixedLen .float8 => floatParses v
  | .fixedLen .int8 => (rustParseSigned (-(2 ^ 63)) (2 ^ 63 - 1) v).isSome
  | .varLenSizedPrecision .decimaln _ _ _ => decimalParses v
  | .varLenSizedPrecision .numericn _ _ _ => decimalParses v
  | .varLenSizedPrecision .money _ _ _ => decimalParses v
  | _ => true

/-- The types `process_record` supports at all (everything else panics with
"Unsupported … type"). -/
def supportedTy : TypeInfo → Bool
  | .fixedLen f =>
    match f with
    | .null => true
    | .int1 => true
    | .bit => true
    | .int2 => true
    | .int4 => true
    | .float4 => true
    | .float8 => true
    | .int8 => true
    | _ => false
  | .varLenSized vt _ => vt == .bigVarChar || vt == .nVarchar
  | .varLenSizedPrecision vt _ _ _ => vt == .decimaln || vt == .numericn || vt == .money
  | .xml => false

/-- The single `INT` target column of the C7 witness. -/
def tcC7 : ParserColumn × ColumnIdentifier × BaseMetaDataColumn :=
  (ParserColumn.new
      { full := "[dbo].[T].[C]", separatorSchemaTable := 5, separatorTableColumn := 9 }
      false "f",
    { full := "[dbo].[T].[C_0]", separatorSchemaTable := 5, separatorTableColumn := 9 },
    { flags := ColumnFlags.empty, ty := .fixedLen .int4 })

/-- The C6 witness mapper: one Static and one Parser column against a table
with no fetched column metadata (so the NVARCHAR(max) fallback is used). -/
def tableT_c6 : TableIdentifier := { full := "[dbo].[W]", separatorSchemaTable := 5 }

def colS_c6 : ColumnIdentifier :=
  { full := "[dbo].[W].[S]", separatorSchemaTable := 5, separatorTableColumn := 9 }

def colP_c6 : ColumnIdentifier :=
  { full := "[dbo].[W].[P]", separatorSchemaTable := 5, separatorTableColumn := 9 }

def mapperC6 : TableMapper :=
  { tableIdentifier := tableT_c6,
    columns := [.static { columnIdentifier := colS_c6, mapColumn := false, value := "v" },
                .parser { columnIdentifier := colP_c6, mapColumn := false, fieldName := "f" }],
    keyColumns := [] }

def tmdC6 : TableMetadata := [(tableT_c6, [])]

def graphC6 : ColumnGraph :=
  (ColumnGraph.new mapperC6 tmdC6 ImportOptions.default).toOption.getD
    { nodes := [], edges := [], groups := [], uniqueIdentifiers := [], metadata := [] }

/-! # Theorems -/

/-! Helper lemma for the slice accessors: taking the length of the left
component of an append returns that component. -/

theorem strTake_append (s t : String) : strTake (s ++ t) s.length = s := by
  obtain ⟨ds⟩ := s
  obtain ⟨dt⟩ := t
  show (⟨(ds ++ dt).take ds.length⟩ : String) = ⟨ds⟩
  rw [List.take_left]

theorem strDrop_append (s t : String) : strDrop (s ++ t) s.length = t := by
  obtain ⟨ds⟩ := s
  obtain ⟨dt⟩ := t
  show (⟨(ds ++ dt).drop ds.length⟩ : String) = ⟨dt⟩
  rw [List.drop_left]

/-! ## Claim C9

The claim says parsing the 2-part string `"a.b"` as a `TableIdentifier`
defaults the schema to `[dbo]`.  In the source the `[dbo]` default applies to
the 1-part form only; for a 2-part string the first part becomes the schema. -/

/-- C9, counterexample: `TableIdentifier::from_str("a.b")` has schema `"[a]"`,
not `"[dbo]"` as the claim states. -/
theorem c9_counterexample :
    (TableIdentifier.fromStr "a.b").map TableIdentifier.schema = .ok "[a]" ∧
    ¬ (TableIdentifier.fromStr "a.b").map TableIdentifier.schema = .ok "[dbo]" := by
  refine ⟨rfl, fun h => ?_⟩
  rw [show (TableIdentifier.fromStr "a.b").map TableIdentifier.schema = .ok "[a]" from rfl] at h
  injection h with h
  exact absurd h (by decide)

/-- C9, amended: parsing a 1-part table string defaults the schema to `[dbo]`;
parsing the 2-part string `"a.b"` yields schema `"[a]"`, taken from the first
part. -/
theorem c9_amended :
    (∀ (p : String) (t : TableIdentifier),
      (splitOnChar '.' p).length = 1 →
      TableIdentifier.fromStr p = .ok t →
      t.schema = "[dbo]") ∧
    (TableIdentifier.fromStr "a.b").map TableIdentifier.schema = .ok "[a]" := by
  refine ⟨?_, rfl⟩
  intro p t hlen hparse
  rw [TableIdentifier.fromStr] at hparse
  match hsplit : splitOnChar '.' p with
  | [] => simp [hsplit] at hlen
  | [p1] =>
    rw [hsplit] at hparse
    rw [tableFromParts] at hparse
    cases hnorm : normalizeIdentifierPart p1 with
    | error e => rw [hnorm] at hparse; exact Except.noConfusion hparse
    | ok table =>
      rw [hnorm] at hparse
      injection hparse with hparse
      subst hparse
      show strTake ("[dbo]" ++ "." ++ table) ("[dbo]" : String).length = "[dbo]"
      have h5 : ("[dbo]" ++ "." ++ table : String) = ("[dbo]" : String) ++ ("." ++ table) := by
        rw [String.append_assoc]
      rw [h5, strTake_append]
  | p1 :: p2 :: rest => simp [hsplit] at hlen

/-- C9, witness for the amended theorem at the 1-part input `"b"`. -/
theorem c9_amended_witness :
    (splitOnChar '.' "b").length = 1 ∧
    TableIdentifier.fromStr "b" = .ok { full := "[dbo].[b]", separatorSchemaTable := 5 } ∧
    TableIdentifier.schema { full := "[dbo].[b]", separatorSchemaTable := 5 } = "[dbo]" :=
  ⟨by decide, rfl,
    c9_amended.1 "b" { full := "[dbo].[b]", separatorSchemaTable := 5 } (by decide) rfl⟩

/-! ## Claim C10

Identifier parsing accepts empty parts: `normalize_identifier_part("")`
auto-brackets the empty string to `"[]"`. -/

/-- C10: `normalize_identifier_part` maps `""` to `"[]"`,
`DatabaseIdentifier::from_str("")` succeeds with full text `"[]"`, and the
column string `"a..b"` parses to `"[a].[].[b]"`. -/
theorem c10_empty_parts_accepted :
    normalizeIdentifierPart "" = .ok "[]" ∧
    (DatabaseIdentifier.fromStr "").map DatabaseIdentifier.full = .ok "[]" ∧
    (ColumnIdentifier.fromStr "a..b").map ColumnIdentifier.full = .ok "[a].[].[b]" :=
  ⟨rfl, rfl, rfl⟩

theorem importSchema_eq_parse : SchemaIdentifier.fromStr "[import]" = .ok importSchema := rfl

/-- C1: the column graph of a mapper with a Static and a Parser column builds
successfully, its topological group 0 contains the Static node (no incoming
edges ⇒ source), and `InsertProcessor::new` on that group reaches the
`unreachable!` panic (modelled as `none`) instead of only ever seeing Parser
variants as the claim asserts. -/
theorem c1_static_in_group0_hits_unreachable :
    ColumnGraph.new mapperC1 tmdC1 ImportOptions.default = .ok graphC1 ∧
    graphC1.groups = [[0, 1]] ∧
    (graphC1.groupsIndexed.headD []).map IndexedColumnNode.column =
      [ColumnNode.staticColumn
        { columnIdentifier := colS_c1, mapColumn := false, value := "v" } false,
       ColumnNode.parserColumn
        { columnIdentifier := colP_c1, mapColumn := false, fieldName := "f" } false] ∧
    insertProcessorTargetColumns (graphC1.groupsIndexed.headD []) = none :=
  ⟨rfl, rfl, rfl, rfl⟩

/-! # Claim C2

The claim: after the staging table exists, an error in the mapper run still
finalizes the staging table and the *original* error is returned; a drop
error surfaces only when no prior error exists.  The source checks the
finalize result first and returns its error unconditionally, so when both
fail the drop error — not the mapper's — is returned. -/

/-- C2, counterexample: with a failed mapper run and a failed drop, the
returned error is the finalize (drop) error, not the mapper's error as the
claim states. -/
theorem c2_counterexample :
    importExecutorMapperEpilogue ImportOptions.default
        (.error { msg := "mapper failed" }) (.error { msg := "drop failed" }) =
      .error (.finalizeTemporaryTable { msg := "drop failed" }) ∧
    ¬ importExecutorMapperEpilogue ImportOptions.default
        (.error { msg := "mapper failed" }) (.error { msg := "drop failed" }) =
      .error (.executeTableMapper { msg := "mapper failed" }) := by
  refine ⟨rfl, fun h => ?_⟩
  rw [show importExecutorMapperEpilogue ImportOptions.default
        (.error { msg := "mapper failed" }) (.error { msg := "drop failed" }) =
      .error (.finalizeTemporaryTable { msg := "drop failed" }) from rfl] at h
  injection h with h
  exact ImportExecutorMapperError.noConfusion h

/-- C2, amended: finalization is always attempted, and the mapper's error is
returned when the drop succeeds (or is skipped via `no_drop`); but whenever
the drop itself fails — including when the mapper run already failed — the
drop error is the one returned. -/
theorem c2_amended (importOptions : ImportOptions) (m : ExecuteTableMapperError)
    (dropResult : Except DbError Unit) :
    (temporaryTableFinalize importOptions.noDrop dropResult = .ok () →
      importExecutorMapperEpilogue importOptions (.error m) dropResult =
        .error (.executeTableMapper m)) ∧
    (∀ (result : Except ExecuteTableMapperError Unit) (d : DbError),
      temporaryTableFinalize importOptions.noDrop dropResult = .error d →
      importExecutorMapperEpilogue importOptions result dropResult =
        .error (.finalizeTemporaryTable d)) ∧
    (importOptions.noDrop = true →
      temporaryTableFinalize importOptions.noDrop dropResult = .ok ()) := by
  refine ⟨fun h => ?_, fun result d h => ?_, fun h => ?_⟩
  · simp only [importExecutorMapperEpilogue, h]
  · simp only [importExecutorMapperEpilogue, h]
  · simp [temporaryTableFinalize, h]

/-- C2, witness for the amended theorem: failed mapper run, successful drop ⇒
the mapper's error is returned. -/
theorem c2_amended_witness :
    temporaryTableFinalize ImportOptions.default.noDrop (.ok ()) = .ok () ∧
    importExecutorMapperEpilogue ImportOptions.default
        (.error { msg := "mapper failed" }) (.ok ()) =
      .error (.executeTableMapper { msg := "mapper failed" }) :=
  ⟨rfl, (c2_amended ImportOptions.default { msg := "mapper failed" } (.ok ())).1 rfl⟩

/-! # Claim C4

The claim: the merge processor runs iff `no_merge` is not set.  Neither
`execute_table_mapper` nor the per-mapper loop of `import_executor` ever
consults `no_merge` (its only occurrences in the sources are the CLI
declaration and its default); the MERGE is issued unconditionally, directly
contradicting the option's own doc comment "Do not merge results from the
temporary table to the target table". -/

/-- C4: with `no_merge` (and the `no_drop` it requires) set, the mapper
phase schedule still contains the MERGE phase, for every group structure. -/
theorem c4_merge_runs_despite_no_merge :
    ∀ (groups : List (List Nat)),
      MapperPhase.mergePhase ∈
        importExecutorMapperPhases
          { noMerge := true, noDrop := true, noDuplicateOptimization := false } groups := by
  intro groups
  simp [importExecutorMapperPhases, executeTableMapperPhases]

/-- C5: with duplicate optimization enabled, two Parser columns that differ
only in their `map` flag are NOT merged — both nodes survive, unchanged —
while two fully identical Parser columns ARE collapsed to the first node.
The grouping therefore keys on the `map` flag, contrary to the claim. -/
theorem c5_dedup_keys_on_map_flag :
    (ColumnGraph.new mapperC5diff tmdC5 ImportOptions.default).map (fun g => g.nodes) =
      .ok [(0, .parserColumn { columnIdentifier := colP_c5, mapColumn := false,
                               fieldName := "f" } false),
           (1, .parserColumn { columnIdentifier := colP_c5, mapColumn := true,
                               fieldName := "f" } false)] ∧
    (ColumnGraph.new mapperC5same tmdC5 ImportOptions.default).map (fun g => g.nodes) =
      .ok [(0, .parserColumn { columnIdentifier := colP_c5, mapColumn := false,
                               fieldName := "f" } false)] :=
  ⟨rfl, rfl⟩

/-- C3: on a mapper with a mapped Static (transient, non-identity) column,
the MERGE's INSERT column list omits the static column but the VALUES list
still contains its staging counterpart: one target column against two values,
so the VALUES list is not the list of staging counterparts of the INSERT
columns.  (The key lookup and SET list are also evaluated for context.) -/
theorem c3_values_list_keeps_transient_columns :
    ColumnGraph.new mapperC3 tmdC3 ImportOptions.default = .ok graphC3 ∧
    mergeInsertColumnsTarget graphC3.targetColumns = ["[A]"] ∧
    mergeInsertColumnsTemporary graphC3.targetColumns = ["[B_0]", "[A_1]"] ∧
    (mergeInsertColumnsTarget graphC3.targetColumns).length ≠
      (mergeInsertColumnsTemporary graphC3.targetColumns).length ∧
    (mergeIndexedKeyColumns [colA_c3] graphC3.targetColumns).map
        (fun k => mergeSetUpdateColumns k graphC3.targetColumns) =
      .ok [("[B]", "[B_0]")] := by
  refine ⟨rfl, rfl, rfl, ?_, rfl⟩
  decide

/-! # Claim C8

`record_number` numbering of both record sources.  In the delimited stream
every *parsed* csv record — whether it converts to a record or fails with
`TooFewFields`/`TooManyFields` — advances the counter and carries the
advanced value (so a per-record error occupies exactly its own position,
never more), while a `fill_buf` I/O error carries the unchanged counter.  In
the XML stream only successfully emitted records advance the counter; every
error carries it unchanged.  In both sources the first number handed out is
1 and each successfully emitted record advances the counter by exactly 1, as
the claim's monotone-by-success rule requires. -/

theorem delimitedRun_wellNumbered :
    ∀ (evs : List DelimitedEvent) (rn : Nat),
      delimitedWellNumbered rn (delimitedRun rn evs) := by
  intro evs
  induction evs with
  | nil => intro rn; exact trivial
  | cons ev rest ih =>
    intro rn
    cases ev with
    | ioError => exact ⟨rfl, ih rn⟩
    | record parsed =>
      cases parsed with
      | ok fields => exact ⟨rfl, ih (rn + 1)⟩
      | error e => exact ⟨rfl, ih (rn + 1)⟩
    | endOfStream => exact trivial

theorem delimitedConsumingNumbers_range :
    ∀ (items : List DelimitedItem) (rn : Nat),
      delimitedWellNumbered rn items →
      delimitedConsumingNumbers items =
        List.range' (rn + 1) ((items.filter DelimitedItem.consumes).length) := by
  intro items
  induction items with
  | nil => intro rn _; rfl
  | cons item rest ih =>
    intro rn h
    cases item with
    | okRecord n fields =>
      obtain ⟨hn, hrest⟩ := h
      subst hn
      rw [show delimitedConsumingNumbers (DelimitedItem.okRecord (rn + 1) fields :: rest) =
            (rn + 1) :: delimitedConsumingNumbers rest from rfl,
          show (DelimitedItem.okRecord (rn + 1) fields :: rest).filter DelimitedItem.consumes =
            DelimitedItem.okRecord (rn + 1) fields :: rest.filter DelimitedItem.consumes
            from rfl,
          List.length_cons, List.range'_succ]
      exact congrArg (List.cons (rn + 1)) (ih _ hrest)
    | parseErr n =>
      obtain ⟨hn, hrest⟩ := h
      subst hn
      rw [show delimitedConsumingNumbers (DelimitedItem.parseErr (rn + 1) :: rest) =
            (rn + 1) :: delimitedConsumingNumbers rest from rfl,
          show (DelimitedItem.parseErr (rn + 1) :: rest).filter DelimitedItem.consumes =
            DelimitedItem.parseErr (rn + 1) :: rest.filter DelimitedItem.consumes from rfl,
          List.length_cons, List.range'_succ]
      exact congrArg (List.cons (rn + 1)) (ih _ hrest)
    | ioErr n =>
      obtain ⟨hn, hrest⟩ := h
      rw [show delimitedConsumingNumbers (DelimitedItem.ioErr n :: rest) =
            delimitedConsumingNumbers rest from rfl,
          show (DelimitedItem.ioErr n :: rest).filter DelimitedItem.consumes =
            rest.filter DelimitedItem.consumes from rfl]
      exact ih _ hrest

/-- Case analysis of one XML step on the record counter: `continue` and
error emissions leave it unchanged, a record emission advances it by one. -/
theorem xmlStep_recordNumber (sel fields : List String) (st : XmlState) (ev : XmlEvent) :
    (match xmlStep sel fields st ev with
     | .continueStep st' => st'.recordNumber = st.recordNumber
     | .emitOk st' _ => st'.recordNumber = st.recordNumber + 1
     | .emitErr st' _ => st'.recordNumber = st.recordNumber
     | .eofReached => True
     | .panicStep => True) := by
  cases ev <;> simp only [xmlStep]
  all_goals
    split <;> rename_i heq <;> repeat' split at heq
  all_goals
    first
      | (cases heq; rfl)
      | trivial

theorem xmlRun_wellNumbered :
    ∀ (evs : List XmlEvent) (sel fields : List String) (st : XmlState),
      xmlWellNumbered st.recordNumber (xmlRun sel fields st evs) := by
  intro evs
  induction evs with
  | nil => intro sel fields st; exact trivial
  | cons ev rest ih =>
    intro sel fields st
    have h := xmlStep_recordNumber sel fields st ev
    rcases hstep : xmlStep sel fields st ev with st' | ⟨st', r⟩ | ⟨st', k⟩ | _ | _ <;>
      rw [hstep] at h
    · rw [show xmlRun sel fields st (ev :: rest) = xmlRun sel fields st' rest by
        simp only [xmlRun, hstep]]
      rw [← h]
      exact ih sel fields st'
    · rw [show xmlRun sel fields st (ev :: rest) =
        .okRecord st'.recordNumber r :: xmlRun sel fields st' rest by
          simp only [xmlRun, hstep]]
      refine ⟨by rw [h], ?_⟩
      rw [← h]
      exact ih sel fields st'
    · rw [show xmlRun sel fields st (ev :: rest) =
        .errItem (optOfNat st'.recordNumber) k :: xmlRun sel fields st' rest by
          simp only [xmlRun, hstep]]
      refine ⟨by rw [h], ?_⟩
      rw [← h]
      exact ih sel fields st'
    · rw [show xmlRun sel fields st (ev :: rest) = [] by simp only [xmlRun, hstep]]
      exact trivial
    · rw [show xmlRun sel fields st (ev :: rest) = [] by simp only [xmlRun, hstep]]
      exact trivial

theorem xmlSuccessNumbers_range :
    ∀ (items : List XmlItem) (rn : Nat),
      xmlWellNumbered rn items →
      xmlSuccessNumbers items =
        List.range' (rn + 1) ((items.filter XmlItem.isSuccess).length) := by
  intro items
  induction items with
  | nil => intro rn _; rfl
  | cons item rest ih =>
    intro rn h
    cases item with
    | okRecord n record =>
      obtain ⟨hn, hrest⟩ := h
      subst hn
      rw [show xmlSuccessNumbers (XmlItem.okRecord (rn + 1) record :: rest) =
            (rn + 1) :: xmlSuccessNumbers rest from rfl,
          show (XmlItem.okRecord (rn + 1) record :: rest).filter XmlItem.isSuccess =
            XmlItem.okRecord (rn + 1) record :: rest.filter XmlItem.isSuccess from rfl,
          List.length_cons, List.range'_succ]
      exact congrArg (List.cons (rn + 1)) (ih _ hrest)
    | errItem n k =>
      obtain ⟨hn, hrest⟩ := h
      rw [show xmlSuccessNumbers (XmlItem.errItem n k :: rest) =
            xmlSuccessNumbers rest from rfl,
          show (XmlItem.errItem n k :: rest).filter XmlItem.isSuccess =
            rest.filter XmlItem.isSuccess from rfl]
      exact ih _ hrest

/-- C8: for both record sources, starting from the fresh counter
(`record_number = None`, i.e. `0`): (delimited) every emitted record —
success or per-record error — carries the counter advanced by exactly one
from its current value, so a per-record error carries exactly its own
position, an I/O error carries the unchanged counter, and the numbers of the
emitted records are exactly `1, 2, 3, …`; (XML) a successful record carries
the counter advanced by exactly one and errors carry it unchanged, so the
successful records are numbered exactly `1, 2, 3, …`.  In both sources the
next successfully emitted record's number is one greater than the last
success's number plus the intervening consumed positions (in the XML source
errors consume none). -/
theorem c8_record_number_monotone_by_success :
    (∀ (rn : Nat) (evs : List DelimitedEvent),
      delimitedWellNumbered rn (delimitedRun rn evs)) ∧
    (∀ (evs : List DelimitedEvent),
      delimitedConsumingNumbers (delimitedRun 0 evs) =
        List.range' 1 (((delimitedRun 0 evs).filter DelimitedItem.consumes).length)) ∧
    (∀ (sel fields : List String) (st : XmlState) (evs : List XmlEvent),
      xmlWellNumbered st.recordNumber (xmlRun sel fields st evs)) ∧
    (∀ (sel fields : List String) (evs : List XmlEvent),
      xmlSuccessNumbers (xmlRun sel fields XmlState.initial evs) =
        List.range' 1
          (((xmlRun sel fields XmlState.initial evs).filter XmlItem.isSuccess).length)) := by
  refine ⟨fun rn evs => delimitedRun_wellNumbered evs rn, fun evs => ?_,
    fun sel fields st evs => xmlRun_wellNumbered evs sel fields st, fun sel fields evs => ?_⟩
  · exact delimitedConsumingNumbers_range _ 0 (delimitedRun_wellNumbered evs 0)
  · exact xmlSuccessNumbers_range _ 0 (xmlRun_wellNumbered evs sel fields XmlState.initial)

/-- The coercion panics exactly on the unsupported types, independently of
the field text. -/
theorem coerceColumnData_eq_none_iff (ty : TypeInfo) (v : String) :
    coerceColumnData ty v = none ↔ supportedTy ty = false := by
  match ty with
  | .fixedLen f => cases f <;> simp [coerceColumnData, supportedTy]
  | .varLenSized vt sz => cases vt <;> simp [coerceColumnData, supportedTy]
  | .varLenSizedPrecision vt a b c => cases vt <;> simp [coerceColumnData, supportedTy]
  | .xml => simp [coerceColumnData, supportedTy]

/-- C7: (a) for every parse-coerced column type the cell is always produced
(no row error) and is NULL exactly when the field text fails to parse;
(b) big-char and NVARCHAR cells pass the text through unchanged;
(c) the coercion panics ("unsupported type") exactly on the unsupported
types; and (d) with every declared field present and every column type
supported, `process_record` always sends the row of coerced cells — cell
parse failures never reject the record. -/
theorem c7_bulk_insert_coercion :
    (∀ (ty : TypeInfo) (v : String), parseCoercedTy ty = true →
      ∃ cell, coerceColumnData ty v = some cell ∧
        (cell.isNull = true ↔ fieldParseSucceeds ty v = false)) ∧
    (∀ (sz : Nat) (v : String),
      coerceColumnData (.varLenSized .bigVarChar sz) v = some (.string (some v)) ∧
      coerceColumnData (.varLenSized .nVarchar sz) v = some (.string (some v))) ∧
    (∀ (ty : TypeInfo) (v : String),
      coerceColumnData ty v = none ↔ supportedTy ty = false) ∧
    (∀ (tcs : List (ParserColumn × ColumnIdentifier × BaseMetaDataColumn))
       (record : RecordFields),
      (∀ t ∈ tcs, (assocFind record t.1.fieldName).isSome = true) →
      (∀ t ∈ tcs, supportedTy t.2.2.ty = true) →
      processRecord tcs record =
        .sent (tcs.map (fun t =>
          (coerceColumnData t.2.2.ty
            ((assocFind record t.1.fieldName).getD "")).getD (.bit none)))) := by
  refine ⟨?_, ?_, ?_, ?_⟩
  · intro ty v hty
    match ty, hty with
    | .fixedLen .int1, _ =>
      refine ⟨_, rfl, ?_⟩
      cases h : rustParseUnsigned 255 v <;>
        simp [ColumnData.isNull, fieldParseSucceeds, h]
    | .fixedLen .bit, _ =>
      refine ⟨_, rfl, ?_⟩
      cases h : rustParseBool v <;>
        simp [ColumnData.isNull, fieldParseSucceeds, h]
    | .fixedLen .int2, _ =>
      refine ⟨_, rfl, ?_⟩
      cases h : rustParseSigned (-(2 ^ 15)) (2 ^ 15 - 1) v <;>
        simp only [ColumnData.isNull, fieldParseSucceeds, h] <;> simp
    | .fixedLen .int4, _ =>
      refine ⟨_, rfl, ?_⟩
      cases h : rustParseSigned (-(2 ^ 31)) (2 ^ 31 - 1) v <;>
        simp only [ColumnData.isNull, fieldParseSucceeds, h] <;> simp
    | .fixedLen .float4, _ =>
      refine ⟨_, rfl, ?_⟩
      by_cases h : floatParses v <;>
        simp [ColumnData.isNull, fieldParseSucceeds, h]
    | .fixedLen .float8, _ =>
      refine ⟨_, rfl, ?_⟩
      by_cases h : floatParses v <;>
        simp [ColumnData.isNull, fieldParseSucceeds, h]
    | .fixedLen .int8, _ =>
      refine ⟨_, rfl, ?_⟩
      cases h : rustParseSigned (-(2 ^ 63)) (2 ^ 63 - 1) v <;>
        simp only [ColumnData.isNull, fieldParseSucceeds, h] <;> simp
    | .varLenSizedPrecision .decimaln a b c, _ =>
      refine ⟨_, rfl, ?_⟩
      by_cases h : decimalParses v <;>
        simp [ColumnData.isNull, fieldParseSucceeds, h]
    | .varLenSizedPrecision .numericn a b c, _ =>
      refine ⟨_, rfl, ?_⟩
      by_cases h : decimalParses v <;>
        simp [ColumnData.isNull, fieldParseSucceeds, h]
    | .varLenSizedPrecision .money a b c, _ =>
      refine ⟨_, rfl, ?_⟩
      by_cases h : decimalParses v <;>
        simp [ColumnData.isNull, fieldParseSucceeds, h]
  · intro sz v
    exact ⟨rfl, rfl⟩
  · exact coerceColumnData_eq_none_iff
  · intro tcs record hfields htypes
    have main : ∀ (l : List (ParserColumn × ColumnIdentifier × BaseMetaDataColumn))
        (acc : List ColumnData),
        (∀ t ∈ l, (assocFind record t.1.fieldName).isSome = true) →
        (∀ t ∈ l, supportedTy t.2.2.ty = true) →
        processRecord.go record l acc =
          .sent (acc ++ l.map (fun t =>
            (coerceColumnData t.2.2.ty
              ((assocFind record t.1.fieldName).getD "")).getD (.bit none))) := by
      intro l
      induction l with
      | nil => intro acc _ _; simp [processRecord.go]
      | cons t rest ih =>
        intro acc hf ht
        have hfv : (assocFind record t.1.fieldName).isSome = true :=
          hf t (List.mem_cons_self t rest)
        obtain ⟨fv, hfv'⟩ := Option.isSome_iff_exists.mp hfv
        have htv : supportedTy t.2.2.ty = true := ht t (List.mem_cons_self t rest)
        have hcv : ∃ cell, coerceColumnData t.2.2.ty fv = some cell := by
          rcases hc : coerceColumnData t.2.2.ty fv with _ | cell
          · exact absurd ((coerceColumnData_eq_none_iff t.2.2.ty fv).mp hc) (by simp [htv])
          · exact ⟨cell, rfl⟩
        obtain ⟨cell, hcell⟩ := hcv
        rw [show processRecord.go record (t :: rest) acc =
            processRecord.go record rest (acc ++ [cell]) by
          simp only [processRecord.go, hfv', hcell]]
        rw [ih (acc ++ [cell]) (fun u hu => hf u (List.mem_cons_of_mem t hu))
          (fun u hu => ht u (List.mem_cons_of_mem t hu))]
        simp [hfv', hcell, List.append_assoc]
    exact main tcs [] hfields htypes

/-- C7, witness: an `INT` staging column receives `"42"` (stored `42`) and
`"abc"` (stored NULL); a one-column record with the unparsable value is
still sent with a NULL cell. -/
theorem c7_witness :
    parseCoercedTy (.fixedLen .int4) = true ∧
    (∃ cell, coerceColumnData (.fixedLen .int4) "abc" = some cell ∧
      (cell.isNull = true ↔ fieldParseSucceeds (.fixedLen .int4) "abc" = false)) ∧
    coerceColumnData (.fixedLen .int4) "42" = some (.i32 (some 42)) ∧
    coerceColumnData (.fixedLen .int4) "abc" = some (.i32 none) ∧
    processRecord [tcC7] [("f", "abc")] = .sent [.i32 none] := by
  refine ⟨rfl, c7_bulk_insert_coercion.1 (.fixedLen .int4) "abc" rfl, rfl, rfl, ?_⟩
  have h := c7_bulk_insert_coercion.2.2.2 [tcC7] [("f", "abc")]
    (by intro t ht; simp only [List.mem_singleton] at ht; subst ht; rfl)
    (by intro t ht; simp only [List.mem_singleton] at ht; subst ht; rfl)
  exact h.trans (by rfl)

/-! # Claim C6 — supporting lemmas -/

/-- The eager layering covers the remaining nodes exactly: a successful
grouping's flattening is a permutation of the input. -/
theorem toposortGo_flatten_perm (edges : List (Nat × Nat)) :
    ∀ (fuel : Nat) (remaining : List Nat) (gs : List (List Nat)),
      toposortGo edges fuel remaining = .ok gs → gs.flatten.Perm remaining := by
  intro fuel
  induction fuel with
  | zero =>
    intro remaining gs h
    cases remaining with
    | nil =>
      injection h with h
      subst h
      simp
    | cons n rest => exact Except.noConfusion h
  | succ fuel ih =>
    intro remaining gs h
    cases remaining with
    | nil =>
      injection h with h
      subst h
      simp
    | cons n rest =>
      simp only [toposortGo] at h
      split at h
      · exact Except.noConfusion h
      · split at h
        · exact Except.noConfusion h
        · rename_i groups heq
          injection h with h
          subst h
          rw [List.flatten_cons]
          exact ((ih _ _ heq).append_left _).trans
            (List.filter_append_perm (noRemainingPred edges (n :: rest)) (n :: rest))

theorem toposortGrouped_flatten_perm (nodes : List Nat) (edges : List (Nat × Nat))
    (gs : List (List Nat)) (h : toposortGrouped nodes edges = .ok gs) :
    gs.flatten.Perm nodes :=
  toposortGo_flatten_perm edges nodes.length nodes gs h

theorem wellIndexed_empty : GraphBuildState.empty.wellIndexed := by
  constructor <;> simp [GraphBuildState.empty]

theorem wellIndexed_addNode (st : GraphBuildState) (n : ColumnNode)
    (h : st.wellIndexed) : ((st.addNode n).1).wellIndexed := by
  obtain ⟨hb, hnd⟩ := h
  constructor
  · intro p hp
    simp only [GraphBuildState.addNode, List.mem_append, List.mem_singleton] at hp
    rcases hp with hp | hp
    · exact Nat.lt_succ_of_lt (hb p hp)
    · subst hp; exact Nat.lt_succ_self _
  · simp only [GraphBuildState.addNode, List.map_append, List.map_cons, List.map_nil]
    rw [List.nodup_append]
    refine ⟨hnd, List.nodup_singleton _, ?_⟩
    intro a ha hamem
    simp only [List.mem_singleton] at hamem
    subst hamem
    obtain ⟨p, hp, hfst⟩ := List.mem_map.mp ha
    exact absurd (hfst ▸ hb p hp) (Nat.lt_irrefl _)

theorem wellIndexed_addEdge (st : GraphBuildState) (a b : Nat)
    (h : st.wellIndexed) : (st.addEdge a b).wellIndexed := h

theorem wellIndexed_addLookupKeys (lookupIndex : Nat) :
    ∀ (keys : List LookupKeyColumn) (st : GraphBuildState),
      st.wellIndexed → (addLookupKeys lookupIndex st keys).wellIndexed := by
  intro keys
  induction keys with
  | nil => intro st h; exact h
  | cons k rest ih =>
    intro st h
    cases k with
    | parserKeyColumn pk =>
      refine ih _ ?_
      have h1 := wellIndexed_addNode st (.lookupColumnParserKeyColumn pk) h
      have h2 := wellIndexed_addEdge _ st.next lookupIndex h1
      have h3 := wellIndexed_addNode _
        (.parserColumn (ParserColumn.new pk.keyColumnIdentifier false pk.fieldName) false) h2
      have h4 := wellIndexed_addEdge _ (st.next + 1) st.next h3
      exact h4
    | processedKeyColumn pk =>
      refine ih _ ?_
      have h1 := wellIndexed_addNode st (.lookupColumnProcessedKeyColumn pk) h
      have h2 := wellIndexed_addEdge _ st.next lookupIndex h1
      exact h2

theorem wellIndexed_addColumnNodes :
    ∀ (cols : List TableMapperColumn) (st : GraphBuildState),
      st.wellIndexed → (addColumnNodes st cols).wellIndexed := by
  intro cols
  induction cols with
  | nil => intro st h; exact h
  | cons c rest ih =>
    intro st h
    cases c with
    | static s => exact ih _ (wellIndexed_addNode _ _ h)
    | parser p => exact ih _ (wellIndexed_addNode _ _ h)
    | lookup l =>
      exact ih _ (wellIndexed_addLookupKeys _ _ _ (wellIndexed_addNode _ _ h))

theorem orMapInto_map_fst (nodes : List (Nat × ColumnNode)) (first : Nat) (flag : Bool) :
    (orMapInto nodes first flag).map Prod.fst = nodes.map Prod.fst := by
  rw [orMapInto, List.map_map]
  refine List.map_congr_left (fun p _ => ?_)
  simp only [Function.comp_apply]
  split <;> rfl

theorem collapseDuplicate_fst_nodup (nodes : List (Nat × ColumnNode))
    (edges : List (Nat × Nat)) (first dup : Nat)
    (h : (nodes.map Prod.fst).Nodup) :
    (((collapseDuplicate nodes edges first dup).1).map Prod.fst).Nodup := by
  have key : ∀ (flag : Bool) (q : Nat × ColumnNode → Bool),
      (((orMapInto nodes first flag).filter q).map Prod.fst).Nodup := by
    intro flag q
    have hs : List.Sublist (((orMapInto nodes first flag).filter q).map Prod.fst)
        ((orMapInto nodes first flag).map Prod.fst) :=
      (List.filter_sublist _).map Prod.fst
    rw [orMapInto_map_fst] at hs
    exact h.sublist hs
  exact key _ _

theorem foldl_preserve {α β : Type} (P : α → Prop) (step : α → β → α)
    (hstep : ∀ a b, P a → P (step a b)) :
    ∀ (l : List β) (a : α), P a → P (l.foldl step a) := by
  intro l
  induction l with
  | nil => intro a h; exact h
  | cons b rest ih => intro a h; exact ih _ (hstep a b h)

theorem applyDuplicateOptimization_fst_nodup (nodes : List (Nat × ColumnNode))
    (edges : List (Nat × Nat)) (h : (nodes.map Prod.fst).Nodup) :
    (((applyDuplicateOptimization nodes edges).1).map Prod.fst).Nodup := by
  rw [applyDuplicateOptimization]
  refine foldl_preserve
    (fun (g : List (Nat × ColumnNode) × List (Nat × Nat)) => (g.1.map Prod.fst).Nodup)
    _ ?_ _ _ h
  intro g grp hg
  cases grp with
  | nil => exact hg
  | cons first rest =>
    refine foldl_preserve
      (fun (g2 : List (Nat × ColumnNode) × List (Nat × Nat)) => (g2.1.map Prod.fst).Nodup)
      _ ?_ _ _ hg
    intro g2 dup hg2
    exact collapseDuplicate_fst_nodup _ _ _ _ hg2

theorem buildUniqueIdentifiers_map_fst :
    ∀ (nodes : List (Nat × ColumnNode)) (uids : List (Nat × ColumnIdentifier)),
      buildUniqueIdentifiers nodes = .ok uids →
      uids.map Prod.fst = nodes.map Prod.fst := by
  intro nodes
  induction nodes with
  | nil =>
    intro uids h
    injection h with h
    subst h
    rfl
  | cons p rest ih =>
    intro uids h
    simp only [buildUniqueIdentifiers] at h
    split at h
    · exact Except.noConfusion h
    · split at h
      · exact Except.noConfusion h
      · rename_i uids2 heq
        injection h with h
        subst h
        simp only [List.map_cons]
        rw [ih _ heq]

theorem buildMetadata_map_fst (tmd : TableMetadata) :
    ∀ (nodes : List (Nat × ColumnNode)) (mds : List (Nat × BaseMetaDataColumn)),
      buildMetadata tmd nodes = .ok mds →
      mds.map Prod.fst = nodes.map Prod.fst := by
  intro nodes
  induction nodes with
  | nil =>
    intro mds h
    injection h with h
    subst h
    rfl
  | cons p rest ih =>
    intro mds h
    simp only [buildMetadata] at h
    split at h
    · exact Except.noConfusion h
    · split at h
      · exact Except.noConfusion h
      · rename_i mds2 heq
        injection h with h
        subst h
        simp only [List.map_cons]
        rw [ih _ heq]

theorem assocFind_of_mem_fst {β : Type} :
    ∀ (l : List (Nat × β)) (i : Nat), i ∈ l.map Prod.fst →
      ∃ b, assocFind l i = some b := by
  intro l
  induction l with
  | nil => intro i h; simp at h
  | cons p rest ih =>
    intro i h
    by_cases hp : (p.1 == i) = true
    · exact ⟨p.2, by simp [assocFind, List.find?, hp]⟩
    · simp only [List.map_cons, List.mem_cons] at h
      rcases h with h | h
      · exact absurd (by simp [h]) hp
      · obtain ⟨b, hb⟩ := ih i h
        refine ⟨b, ?_⟩
        simp only [assocFind, List.find?, hp] at hb ⊢
        exact hb

theorem assocFind_eq_of_nodup {β : Type} :
    ∀ (l : List (Nat × β)), (l.map Prod.fst).Nodup →
      ∀ p ∈ l, assocFind l p.1 = some p.2 := by
  intro l
  induction l with
  | nil => intro _ p hp; simp at hp
  | cons q rest ih =>
    intro hnd p hp
    simp only [List.map_cons, List.nodup_cons] at hnd
    obtain ⟨hq, hrest⟩ := hnd
    rcases List.mem_cons.mp hp with hp | hp
    · subst hp
      simp [assocFind, List.find?]
    · have hne : (q.1 == p.1) = false := by
        rw [beq_eq_false_iff_ne]
        intro hcontra
        exact hq (hcontra ▸ List.mem_map.mpr ⟨p, hp, rfl⟩)
      simp only [assocFind, List.find?, hne]
      exact ih hrest p hp

/-- With a duplicate-free flattening, the first enumerated group containing a
node is the group the node lies in. -/
theorem enumFrom_find_group :
    ∀ (gs : List (List Nat)) (k : Nat), gs.flatten.Nodup →
      ∀ (gi : Nat) (grp : List Nat), gs.get? gi = some grp → ∀ i ∈ grp,
        ((List.enumFrom k gs).find? (fun p => p.2.contains i)).map Prod.fst =
          some (k + gi) := by
  intro gs
  induction gs with
  | nil => intro k _ gi grp hget; simp at hget
  | cons g0 rest ih =>
    intro k hnd gi grp hget i hi
    rw [List.flatten_cons, List.nodup_append] at hnd
    obtain ⟨hnd0, hndrest, hdisj⟩ := hnd
    cases gi with
    | zero =>
      simp only [List.get?] at hget
      injection hget with hget
      subst hget
      have hc : g0.contains i = true := by simpa using hi
      rw [show List.enumFrom k (g0 :: rest) = (k, g0) :: List.enumFrom (k + 1) rest
        from rfl]
      rw [List.find?_cons_of_pos _ (by simpa using hi)]
      simp
    | succ gi =>
      simp only [List.get?] at hget
      have himem : i ∈ rest.flatten :=
        List.mem_flatten.mpr ⟨grp, List.get?_mem hget, hi⟩
      have hnot : i ∉ g0 := fun hmem => hdisj hmem himem
      rw [show List.enumFrom k (g0 :: rest) = (k, g0) :: List.enumFrom (k + 1) rest
        from rfl]
      rw [List.find?_cons_of_neg _ (by simpa using hnot)]
      rw [ih (k + 1) hndrest gi grp hget i hi]
      congr 1
      omega

theorem groupIndexOf_eq (g : ColumnGraph) (hnd : g.groups.flatten.Nodup)
    (gi : Nat) (grp : List Nat) (hget : g.groups.get? gi = some grp)
    (i : Nat) (hi : i ∈ grp) :
    g.groupIndexOf i = some gi := by
  have h := enumFrom_find_group g.groups 0 hnd gi grp hget i hi
  rw [ColumnGraph.groupIndexOf]
  rw [show g.groups.enum = List.enumFrom 0 g.groups from rfl]
  rw [h]
  congr 1
  omega

/-- The tail positions of `with_position` are exactly `Middle`/`Last`, i.e.
their NULL-extra flag is that of any group index `≥ 1`. -/
theorem withPositionTail_map_staging :
    ∀ (l : List (List IndexedColumnNode)) (k : Nat), 1 ≤ k →
      (withPositionTail l).map (fun pg =>
        pg.2.filterMap
          (stagingEntryOf (pg.1 == ItPosition.middle || pg.1 == ItPosition.last))) =
      (List.enumFrom k l).map
        (fun p => p.2.filterMap (stagingEntryOf (decide (1 ≤ p.1)))) := by
  intro l
  induction l with
  | nil => intro k _; rfl
  | cons x rest ih =>
    intro k hk
    cases rest with
    | nil =>
      simp only [withPositionTail, List.enumFrom, List.map_cons, List.map_nil]
      rw [show ((ItPosition.last == ItPosition.middle || ItPosition.last == ItPosition.last)) =
        true from rfl]
      rw [decide_eq_true hk]
    | cons y rest2 =>
      rw [show withPositionTail (x :: y :: rest2) =
        (ItPosition.middle, x) :: withPositionTail (y :: rest2) from rfl]
      rw [show List.enumFrom k (x :: y :: rest2) =
        (k, x) :: List.enumFrom (k + 1) (y :: rest2) from rfl]
      simp only [List.map_cons]
      rw [show ((ItPosition.middle == ItPosition.middle ||
        ItPosition.middle == ItPosition.last)) = true from rfl]
      rw [decide_eq_true hk]
      rw [ih (k + 1) (Nat.le_succ_of_le hk)]

theorem withPosition_map_staging (l : List (List IndexedColumnNode)) :
    (withPosition l).map (fun pg =>
      pg.2.filterMap
        (stagingEntryOf (pg.1 == ItPosition.middle || pg.1 == ItPosition.last))) =
    l.enum.map (fun p => p.2.filterMap (stagingEntryOf (decide (1 ≤ p.1)))) := by
  cases l with
  | nil => rfl
  | cons x rest =>
    cases rest with
    | nil => rfl
    | cons y rest2 =>
      rw [show withPosition (x :: y :: rest2) =
        (ItPosition.first, x) :: withPositionTail (y :: rest2) from rfl]
      rw [show (x :: y :: rest2).enum =
        (0, x) :: List.enumFrom 1 (y :: rest2) from rfl]
      simp only [List.map_cons]
      rw [withPositionTail_map_staging (y :: rest2) 1 (Nat.le_refl 1)]
      rfl

/-- Transport of the group-walking clause list to the node list: when the
topological groups partition the (duplicate-free) node indices, the CREATE
clause list is a permutation of one `stagingEntryAt` clause per node. -/
theorem temporaryTableColumns_perm (g : ColumnGraph)
    (hflat : g.groups.flatten.Perm (g.nodes.map Prod.fst))
    (hnd : (g.nodes.map Prod.fst).Nodup) :
    (temporaryTableColumns g).Perm
      (g.nodes.filterMap (fun p => stagingEntryAt g p.1)) := by
  have hndflat : g.groups.flatten.Nodup := (hflat.nodup_iff).mpr hnd
  -- step 1: replace Position flags by group indices
  rw [show temporaryTableColumns g =
      (g.groupsIndexed.enum.map
        (fun p => p.2.filterMap (stagingEntryOf (decide (1 ≤ p.1))))).flatten from
    congrArg List.flatten (withPosition_map_staging _)]
  -- step 2: push `indexed` inside, through the enumeration of `groups`
  rw [show g.groupsIndexed = g.groups.map (fun grp => grp.filterMap g.indexed) from rfl]
  rw [List.enum_map]
  rw [List.map_map]
  have hcompose :
      ((fun p => p.2.filterMap (stagingEntryOf (decide (1 ≤ p.1)))) ∘
        (Prod.map id (fun grp => grp.filterMap g.indexed))) =
      (fun (p : Nat × List Nat) =>
        p.2.filterMap (fun i => (g.indexed i).bind (stagingEntryOf (decide (1 ≤ p.1))))) := by
    funext p
    simp [Function.comp, Prod.map, List.filterMap_filterMap]
  rw [hcompose]
  -- step 3: replace each group's index by `groupIndexOf`
  rw [List.map_congr_left (fun p hp => ?_)]
  rotate_left
  · exact fun (p : Nat × List Nat) => p.2.filterMap (fun i => stagingEntryAt g i)
  · obtain ⟨gi, grp⟩ := p
    refine List.filterMap_congr (fun i hi => ?_)
    have hget : g.groups.get? gi = some grp := by
      rw [List.get?_eq_getElem?]
      exact List.mem_enum_iff_getElem?.mp hp
    rw [show stagingEntryAt g i =
      (g.indexed i).bind
        (stagingEntryOf (decide (1 ≤ (g.groupIndexOf i).getD 0))) from rfl]
    rw [groupIndexOf_eq g hndflat gi grp hget i hi]
    rfl
  -- step 4: drop the enumeration
  rw [show (g.groups.enum.map
      (fun (p : Nat × List Nat) => p.2.filterMap (fun i => stagingEntryAt g i))) =
    (g.groups.map (fun grp => grp.filterMap (fun i => stagingEntryAt g i))) by
      rw [show (fun (p : Nat × List Nat) =>
          p.2.filterMap (fun i => stagingEntryAt g i)) =
        ((fun grp => grp.filterMap (fun i => stagingEntryAt g i)) ∘ Prod.snd) from rfl]
      rw [← List.map_map]
      rw [List.enum_map_snd]]
  -- step 5: flatten/filterMap exchange, then the permutation
  rw [← List.filterMap_flatten]
  refine ((hflat.filterMap _).trans ?_)
  rw [List.filterMap_map]
  rfl

theorem columnGraphAssemble_invariants (ne : List (Nat × ColumnNode) × List (Nat × Nat))
    (tmd : TableMetadata) (g : ColumnGraph)
    (h : columnGraphAssemble ne tmd = .ok g) :
    g.nodes = ne.1 ∧
    g.groups.flatten.Perm (g.nodes.map Prod.fst) ∧
    g.uniqueIdentifiers.map Prod.fst = g.nodes.map Prod.fst ∧
    g.metadata.map Prod.fst = g.nodes.map Prod.fst := by
  rw [columnGraphAssemble] at h
  split at h
  · exact Except.noConfusion h
  · rename_i groups htop
    split at h
    · exact Except.noConfusion h
    · rename_i uids huids
      split at h
      · exact Except.noConfusion h
      · rename_i mds hmds
        injection h with h
        subst h
        refine ⟨rfl, ?_, ?_, ?_⟩
        · exact toposortGrouped_flatten_perm _ _ _ htop
        · exact buildUniqueIdentifiers_map_fst _ _ huids
        · exact buildMetadata_map_fst tmd _ _ hmds

theorem columnGraph_new_invariants (tm : TableMapper) (tmd : TableMetadata)
    (opts : ImportOptions) (g : ColumnGraph)
    (hg : ColumnGraph.new tm tmd opts = .ok g) :
    g.groups.flatten.Perm (g.nodes.map Prod.fst) ∧
    (g.nodes.map Prod.fst).Nodup ∧
    g.uniqueIdentifiers.map Prod.fst = g.nodes.map Prod.fst ∧
    g.metadata.map Prod.fst = g.nodes.map Prod.fst := by
  rw [ColumnGraph.new] at hg
  split at hg
  · exact Except.noConfusion hg
  · rename_i pkEdges hpk
    have hndst : (((addColumnNodes GraphBuildState.empty tm.columns).nodes).map
        Prod.fst).Nodup :=
      (wellIndexed_addColumnNodes tm.columns GraphBuildState.empty wellIndexed_empty).2
    obtain ⟨hne, hperm, huid, hmd⟩ := columnGraphAssemble_invariants _ tmd g hg
    have hnd : (g.nodes.map Prod.fst).Nodup := by
      rw [hne]
      split
      · exact applyDuplicateOptimization_fst_nodup _ _ hndst
      · exact hndst
    exact ⟨hperm, hnd, huid, hmd⟩

/-! # Claim C6 -/

/-- C6: for every successfully built column graph, (1) the topological groups
cover each node exactly once; (2) every node has its indexed view; (3) when
the staging table is created, its identifier comes from schema `[import]`
and the target table's unescaped part, and its column clauses are exactly
one `stagingEntryAt` clause per node — i.e. one column per non-transient
node, named by the node's unique staging identifier, declared NULL iff the
metadata is nullable or the node's group index is ≥ 1; and (4) when every
node is transient the result is the `NoNonTransientColumns` error, returned
before any CREATE statement is formed. -/
theorem c6_staging_table_shape (tm : TableMapper) (tmd : TableMetadata)
    (opts : ImportOptions) (g : ColumnGraph) (target : TableIdentifier)
    (hg : ColumnGraph.new tm tmd opts = .ok g) :
    g.groups.flatten.Perm (g.nodes.map Prod.fst) ∧
    (∀ p ∈ g.nodes, ∃ c, g.indexed p.1 = some c ∧ c.column = p.2) ∧
    (∀ tt, TemporaryTable.new target g = .ok tt →
      TableIdentifier.withSchema importSchema target.partUnescaped = .ok tt.identifier ∧
      tt.columns.Perm (g.nodes.filterMap (fun p => stagingEntryAt g p.1))) ∧
    ((∀ p ∈ g.nodes, p.2.isTransient = true) →
      ∀ s, TableIdentifier.withSchema importSchema target.partUnescaped = .ok s →
        TemporaryTable.new target g = .error .noNonTransientColumns) := by
  obtain ⟨hperm, hnd, huid, hmd⟩ := columnGraph_new_invariants tm tmd opts g hg
  have hindexed : ∀ p ∈ g.nodes, ∃ c, g.indexed p.1 = some c ∧ c.column = p.2 := by
    intro p hp
    have h1 : assocFind g.nodes p.1 = some p.2 := assocFind_eq_of_nodup g.nodes hnd p hp
    obtain ⟨u, hu⟩ : ∃ u, assocFind g.uniqueIdentifiers p.1 = some u := by
      apply assocFind_of_mem_fst
      rw [huid]
      exact List.mem_map.mpr ⟨p, hp, rfl⟩
    obtain ⟨m, hm⟩ : ∃ m, assocFind g.metadata p.1 = some m := by
      apply assocFind_of_mem_fst
      rw [hmd]
      exact List.mem_map.mpr ⟨p, hp, rfl⟩
    refine ⟨{ index := p.1, column := p.2, uniqueIdentifier := u, metadata := m }, ?_, rfl⟩
    rw [ColumnGraph.indexed, h1, hu, hm]
  refine ⟨hperm, hindexed, ?_, ?_⟩
  · intro tt htt
    rw [TemporaryTable.new] at htt
    split at htt
    · exact Except.noConfusion htt
    · split at htt
      · exact Except.noConfusion htt
      · rename_i tid htid hne
        injection htt with htt
        subst htt
        exact ⟨htid, temporaryTableColumns_perm g hperm hnd⟩
  · intro htrans s hs
    have hnil : g.nodes.filterMap (fun p => stagingEntryAt g p.1) = [] := by
      rw [List.filterMap_eq_nil_iff]
      intro p hp
      obtain ⟨c, hc, hcol⟩ := hindexed p hp
      rw [stagingEntryAt, hc]
      simp [stagingEntryOf, hcol, htrans p hp]
    have hcols : temporaryTableColumns g = [] := by
      have hperm2 := temporaryTableColumns_perm g hperm hnd
      rw [hnil] at hperm2
      exact hperm2.eq_nil
    rw [TemporaryTable.new, hs]
    simp [hcols]

/-- C6, witness: the shape theorem applied to the concrete graph of
`mapperC6`, discharging the construction hypothesis by evaluation. -/
theorem c6_staging_table_shape_witness :
    ColumnGraph.new mapperC6 tmdC6 ImportOptions.default = .ok graphC6 ∧
    (graphC6.groups.flatten.Perm (graphC6.nodes.map Prod.fst) ∧
     (∀ p ∈ graphC6.nodes, ∃ c, graphC6.indexed p.1 = some c ∧ c.column = p.2) ∧
     (∀ tt, TemporaryTable.new tableT_c6 graphC6 = .ok tt →
       TableIdentifier.withSchema importSchema tableT_c6.partUnescaped = .ok tt.identifier ∧
       tt.columns.Perm (graphC6.nodes.filterMap (fun p => stagingEntryAt graphC6 p.1))) ∧
     ((∀ p ∈ graphC6.nodes, p.2.isTransient = true) →
       ∀ s, TableIdentifier.withSchema importSchema tableT_c6.partUnescaped = .ok s →
         TemporaryTable.new tableT_c6 graphC6 = .error .noNonTransientColumns)) :=
  ⟨rfl, c6_staging_table_shape mapperC6 tmdC6 ImportOptions.default graphC6 tableT_c6 rfl⟩

end SqlBulkImport

